import Mathlib

/-!
# aws-k8s-ebs-autoscaler: device resolution, waiters and dry-run handling

A shallow embedding of `ebsvolumeid.go`, `volumeenlarge.go` and the error handling of
`main.go`, followed by theorems about it.

Conventions of the embedding:
* Go strings that are only compared, stored and passed on (paths of the sysfs walk, device
  names, messages) are `String`; Go strings that are scanned by a regular expression or
  trimmed are `List Char`.
* `log.Fatal*` ends the process; functions that can reach it return a result type with a
  constructor for it.
* Recursion that the source does not bound takes a fuel argument and returns `none` when the
  fuel runs out.
-/

namespace EbsAutoscaler

deriving instance DecidableEq for Except

/-! ## `getListOfSecondaryDevices` (ebsvolumeid.go) -/

/-- What `os.Open` followed by `Readdirnames(1)` and `ioutil.ReadDir` observe at a directory
path: the directory does not exist (`ENOENT`), it cannot be read for another reason, or it
exists and lists `names` (the empty list when `Readdirnames` reports `io.EOF`). -/
inductive DirState where
  | missing
  | unreadable
  | entries (names : List String)
deriving DecidableEq, Repr

/-- Outcome of `getListOfSecondaryDevices`: the process was ended by `log.Fatalln`, or the
function returned its two lists. -/
inductive WalkResult where
  | fatal
  | returned (secondariesList devicesPathsList : List String)
deriving DecidableEq, Repr

/-- The three statements that delete the item being checked from the worklist:
`previous := len(l) - 1; l[0] = l[previous]; l = l[:previous]`. -/
def removeCurrent (secondariesList : List String) : List String :=
  let previous := secondariesList.length - 1
  (secondariesList.set 0 (secondariesList.getD previous "")).take previous

/-- The recursive worklist walk. `join` stands for `filepath.Join` and `fs` for the file
system below the sysfs mount point; `fuel` bounds the number of recursive calls. -/
def getListOfSecondaryDevices (join : String → String → String) (fs : String → DirState) :
    Nat → List String → List String → Option WalkResult
  | _, [], devicesPathsList => some (.returned [] devicesPathsList)
  | 0, _ :: _, _ => none
  | fuel + 1, devicePath :: rest, devicesPathsList =>
    let pathForSearchSecondaries := join devicePath "slaves"
    let secondariesList := removeCurrent (devicePath :: rest)
    match fs pathForSearchSecondaries with
    | .missing =>
      getListOfSecondaryDevices join fs fuel secondariesList (devicesPathsList ++ [devicePath])
    | .unreadable => some .fatal
    | .entries [] =>
      getListOfSecondaryDevices join fs fuel secondariesList (devicesPathsList ++ [devicePath])
    | .entries (s :: ss) =>
      getListOfSecondaryDevices join fs fuel
        (secondariesList ++ (s :: ss).map (join pathForSearchSecondaries)) devicesPathsList

/-- State of the `slaves` directory of the device path `d`. -/
def slavesOf (join : String → String → String) (fs : String → DirState) (d : String) : DirState :=
  fs (join d "slaves")

/-- Path of the child `name` of the device path `d`, as the walk builds it. -/
def childPath (join : String → String → String) (d name : String) : String :=
  join (join d "slaves") name

/-- The hierarchy below `d` has depth at most `n` and no directory in it is unreadable. -/
def boundedBelow (join : String → String → String) (fs : String → DirState) :
    Nat → String → Bool
  | 0, _ => false
  | n + 1, d =>
    match slavesOf join fs d with
    | .missing => true
    | .unreadable => false
    | .entries names => names.all fun name => boundedBelow join fs n (childPath join d name)

/-- Paths reachable from `top` by descending into listed entries of `slaves` directories. -/
inductive Reachable (join : String → String → String) (fs : String → DirState) (top : String) :
    String → Prop
  | start : Reachable join fs top top
  | child {d : String} {names : List String} {name : String} :
      Reachable join fs top d → slavesOf join fs d = .entries names → name ∈ names →
      Reachable join fs top (childPath join d name)

/-- The `slaves` directory of `d` is missing or empty. -/
def isLeaf (join : String → String → String) (fs : String → DirState) (d : String) : Prop :=
  slavesOf join fs d = .missing ∨ slavesOf join fs d = .entries []

/-- Number of paths in the hierarchy below `d`, counted down to depth `n`. -/
def subtreeSize (join : String → String → String) (fs : String → DirState) :
    Nat → String → Nat
  | 0, _ => 1
  | n + 1, d =>
    match slavesOf join fs d with
    | .entries names => 1 + (names.map fun name => subtreeSize join fs n (childPath join d name)).sum
    | _ => 1

/-- Plain concatenation with a separator: `filepath.Join` on clean paths and entry names. -/
def slashJoin (a b : String) : String := a ++ "/" ++ b

/-- A device-mapper node over two partitions, one of which has an empty `slaves` directory. -/
def demoFs : String → DirState := fun p =>
  if p = "/sys/dev/block/253:0/slaves" then .entries ["xvdf1", "xvdg1"]
  else if p = "/sys/dev/block/253:0/slaves/xvdf1/slaves" then .entries []
  else .missing

/-! ## `appendDeviceIfUnique` (ebsvolumeid.go) -/

/-- The `for _, item := range parentDevicesList` loop of `appendDeviceIfUnique`, over the items
still to be visited. -/
def appendDeviceIfUniqueLoop (parentDevicesList : List String) (parentDevice : String) :
    List String → List String
  | [] => parentDevicesList ++ [parentDevice]
  | item :: items =>
    if item = parentDevice then parentDevicesList
    else appendDeviceIfUniqueLoop parentDevicesList parentDevice items

def appendDeviceIfUnique (parentDevicesList : List String) (parentDevice : String) : List String :=
  appendDeviceIfUniqueLoop parentDevicesList parentDevice parentDevicesList

/-! ## Regular expressions of `GetEBSVolumeIDsByMountPoint` (ebsvolumeid.go)

The three patterns are matched with the leftmost-first semantics of Go's `regexp`: the match
starts at the leftmost possible position and, among the matches starting there, is the one a
backtracking search finds first, greedy operators trying the longest repetition first.
`.` matches every character except a line feed; `^` and `$` match at the two ends of the
text only. -/

/-- Go's `unicode.IsSpace`. -/
def isSpace (c : Char) : Bool :=
  let r := c.toNat
  (0x09 ≤ r && r ≤ 0x0d) || r = 0x20 || r = 0x85 || r = 0xa0 || r = 0x1680 ||
  (0x2000 ≤ r && r ≤ 0x200a) || r = 0x2028 || r = 0x2029 || r = 0x202f || r = 0x205f ||
  r = 0x3000

/-- Go's `strings.TrimSpace`. -/
def trimSpace (s : List Char) : List Char :=
  ((s.dropWhile isSpace).reverse.dropWhile isSpace).reverse

/-- A greedy repetition of a character class followed by the rest `k` of the pattern: the
repetition takes the first `i` characters of `s`, for `i` from the longest down to `least`,
and the first `i` at which the rest of the pattern matches wins. -/
def greedyRun {β : Type} (cls : Char → Bool) (least : Nat) (s : List Char)
    (k : List Char → List Char → Option β) : Option β :=
  (List.range (s.length + 1)).reverse.findSome? fun i =>
    if least ≤ i ∧ (s.take i).all cls then k (s.take i) (s.drop i) else none

/-- The class of `.`. -/
def dotClass (c : Char) : Bool := c != '\n'

/-- A trailing `.*`, with nothing of the pattern after it: the longest run of characters other
than a line feed, and what follows the run. -/
def dotStar (s : List Char) : List Char × List Char :=
  (s.takeWhile dotClass, s.dropWhile dotClass)

/-- Leftmost match of `vol(.*)` in `s`: the text before the match, group 1, and the text after
the match. -/
def findVol : List Char → Option (List Char × List Char × List Char)
  | [] => none
  | c :: cs =>
    if "vol".toList.isPrefixOf (c :: cs) then
      some ([], dotStar (cs.drop 2))
    else
      (findVol cs).map fun m => (c :: m.1, m.2)

/-- `serialRegexp.FindString`: the text of the leftmost match, or the empty string. -/
def findString (s : List Char) : List Char :=
  match findVol s with
  | none => []
  | some (_, group1, _) => "vol".toList ++ group1

/-- The loop of `serialRegexp.ReplaceAllString(src, "vol-$1")`: every match, searched from
where the previous one ended, is replaced by `vol-` and its group 1. -/
def replaceAllLoop : Nat → List Char → List Char
  | 0, src => src
  | fuel + 1, src =>
    match findVol src with
    | none => src
    | some (pre, group1, post) => pre ++ ("vol-".toList ++ group1) ++ replaceAllLoop fuel post

/-- `serialRegexp.ReplaceAllString(src, "vol-$1")`. A match is never empty, so `src.length`
iterations are enough. -/
def replaceAllString (src : List Char) : List Char := replaceAllLoop src.length src

/-- Lines 161 to 171 of `GetEBSVolumeIDsByMountPoint`: from the contents of the serial file of
`parentDevice` to the volume ID, or to the message of `log.Fatalf`. -/
def volumeIDOfSerial (parentDevice : String) (serial : List Char) : Except String (List Char) :=
  let volumeID := trimSpace serial
  let hasVolumeIDEBSPrefix := findString volumeID
  if hasVolumeIDEBSPrefix = [] then
    .error ("Device \"" ++ parentDevice ++ "\" is not an EBS volume.")
  else
    .ok (replaceAllString volumeID)

/-- Group 1 of the match of `^.*\/(.*)\/.*$` on `s`, when there is a match. -/
def parentDeviceMatch (s : List Char) : Option (List Char) :=
  greedyRun dotClass 0 s fun _ r1 =>
    match r1 with
    | [] => none
    | c1 :: t =>
      if c1 = '/' then
        greedyRun dotClass 0 t fun group1 r2 =>
          match r2 with
          | [] => none
          | c2 :: u =>
            if c2 = '/' then
              greedyRun dotClass 0 u fun _ r3 => if r3 = [] then some group1 else none
            else none
      else none

/-- Lines 138 and 139: `parentDevicePattern.ReplaceAllString(deviceLink, "$1")`. The pattern is
anchored at both ends, so a match covers the whole text and is replaced by group 1; without a
match the text is returned as it is. -/
def parentDeviceOf (deviceLink : List Char) : List Char :=
  match parentDeviceMatch deviceLink with
  | some group1 => group1
  | none => deviceLink

/-- The class of `\s` in Go's `regexp`: `[\t\n\f\r ]`. -/
def reSpace (c : Char) : Bool :=
  c = '\t' || c = '\n' || c = '\x0c' || c = '\r' || c = ' '

/-- The characters that `regexp.QuoteMeta` escapes. -/
def reMeta (c : Char) : Bool :=
  "\\.+*?()|[]\x7b\x7d^$".toList.contains c

/-- A match of `\S+\s<mountPoint>\s.*` that starts at the head of `s`, for a `mountPoint`
without metacharacters: the matched text. -/
def mountMatchAt (mountPoint s : List Char) : Option (List Char) :=
  greedyRun (fun c => !reSpace c) 1 s fun dev r1 =>
    match r1 with
    | [] => none
    | w1 :: r2 =>
      if reSpace w1 ∧ mountPoint.isPrefixOf r2 then
        match r2.drop mountPoint.length with
        | [] => none
        | w2 :: r3 =>
          if reSpace w2 then some (dev ++ w1 :: (mountPoint ++ w2 :: (dotStar r3).1)) else none
      else none

/-- Leftmost match of `\S+\s<mountPoint>\s.*` in `s`. -/
def findMount (mountPoint : List Char) : List Char → Option (List Char)
  | [] => none
  | c :: cs =>
    match mountMatchAt mountPoint (c :: cs) with
    | some m => some m
    | none => findMount mountPoint cs

/-- Outcome of the mount lookup: a run-time panic on an index out of range, or the two fields
taken from the matched text. -/
inductive MountLookup where
  | panicked
  | found (device deviceFileSystem : List Char)
deriving DecidableEq, Repr

/-- Lines 87 to 93 of `GetEBSVolumeIDsByMountPoint`. `mountPoint` is pasted into the pattern
unquoted; the embedding covers the mount points without regexp metacharacters and answers
`none` for the others. -/
def mountLookup (mountPointsFile mountPoint : List Char) : Option MountLookup :=
  if mountPoint.any reMeta then none
  else
    match findMount mountPoint mountPointsFile with
    | none => some .panicked
    | some matches0 =>
      let mountPointString := matches0.splitOn ' '
      match mountPointString[2]?, mountPointString[0]? with
      | some deviceFileSystem, some device => some (.found device deviceFileSystem)
      | _, _ => some .panicked

/-! ## Errors and process termination -/

/-- A Go `error` value: a plain error, or an `awserr.Error` with its code and message. -/
inductive GoError where
  | plain (msg : String)
  | aws (code message : String)
deriving DecidableEq, Repr

/-- The `Error()` method. -/
def GoError.Error : GoError → String
  | .plain msg => msg
  | .aws code message => code ++ ": " ++ message

/-- A line written through logrus. -/
inductive LogLine where
  | info (msg : String)
  | fatal (msg : String)
deriving DecidableEq, Repr

/-- How a run of `main` ends: what it logged and the exit status of the process.
`log.Fatal*` logs and calls `os.Exit(1)`. -/
structure ProcessEnd where
  logs : List LogLine
  status : Nat
deriving DecidableEq, Repr

def dryRunMessage : String :=
  "Request would have succeeded, but -dry-run=true flag is set. Exiting..."

/-- The `-pvc` case of `main` (main.go, lines 79 to 88 and 122), given what `EnlargePVC`
returned. -/
def mainPVC (pvcNamespace : String) (err : Option GoError) : ProcessEnd :=
  match err with
  | some e =>
    if e.Error = "DryRunOperation" then
      { logs := [.info dryRunMessage], status := 0 }
    else if e.Error = "ContextTimeout" then
      { logs := [.fatal ("Timeout while waiting for the PVC enlargement. See events in namespace \""
          ++ pvcNamespace ++ "\".")], status := 1 }
    else
      { logs := [.fatal e.Error], status := 1 }
  | none => { logs := [], status := 0 }

/-- The loop of the `-mount-point` case of `main` (main.go, lines 98 to 113 and 122), given
what `EnlargeVolumeByID` returns for each volume ID in turn. -/
def mainMountPoint : List (Option GoError) → ProcessEnd
  | [] => { logs := [], status := 0 }
  | none :: rest => mainMountPoint rest
  | some (.aws code message) :: _ =>
    if code = "DryRunOperation" then
      { logs := [.info dryRunMessage], status := 0 }
    else
      { logs := [.fatal (GoError.aws code message).Error], status := 1 }
  | some (.plain msg) :: _ => { logs := [.fatal msg], status := 1 }

/-! ## The polling waiter (volumeenlarge.go, `WaitUntilVolumeModifyedWithContext`)

`request.Waiter` belongs to the AWS SDK for Go (`aws/request/waiter.go`), not to this
repository; `WaiterAcceptor.matches` and `Waiter.waitLoop` follow `WaiterAcceptor.match` and
`Waiter.WaitWithContext` of the SDK for the two matchers the source configures. A response is
the list of values found at `VolumesModifications[].ModificationState`. -/

inductive WaiterState where
  | success
  | failure
  | retry
deriving DecidableEq, Repr

inductive WaiterMatchMode where
  | pathAll
  | pathAny
deriving DecidableEq, Repr

structure WaiterAcceptor where
  state : WaiterState
  matcher : WaiterMatchMode
  expected : String
deriving DecidableEq, Repr

structure Waiter where
  name : String
  maxAttempts : Nat
  acceptors : List WaiterAcceptor
deriving DecidableEq, Repr

/-- How a wait ends, or `polling` when every response so far has been inspected and the waiter
is about to ask again. -/
inductive WaitOutcome where
  | succeeded
  | failed
  | notReady
  | polling
deriving DecidableEq, Repr

/-- The matcher of an acceptor. `PathAllWaiterMatch` needs at least one value
(`if len(vals) == 0 { break }`) and every value equal to `Expected`; `PathAnyWaiterMatch` needs
one value equal to `Expected`. -/
def WaiterAcceptor.matches (a : WaiterAcceptor) (vals : List String) : Bool :=
  match a.matcher with
  | .pathAll => !vals.isEmpty && vals.all fun v => v = a.expected
  | .pathAny => vals.any fun v => v = a.expected

/-- The loop over the acceptors for one response: the first acceptor that matches with a
success or failure state ends the wait. -/
def acceptorsOutcome : List WaiterAcceptor → List String → Option WaitOutcome
  | [], _ => none
  | a :: rest, vals =>
    if a.matches vals then
      match a.state with
      | .success => some .succeeded
      | .failure => some .failed
      | .retry => acceptorsOutcome rest vals
    else acceptorsOutcome rest vals

/-- The loop `for attempt := 1; ; attempt++` of `WaitWithContext` over the responses still to
come: after the response of attempt number `MaxAttempts` the loop is left with
"exceeded wait attempts". -/
def Waiter.waitLoop (w : Waiter) : Nat → List (List String) → WaitOutcome
  | _, [] => .polling
  | attempt, vals :: responses =>
    match acceptorsOutcome w.acceptors vals with
    | some outcome => outcome
    | none => if attempt = w.maxAttempts then .notReady else w.waitLoop (attempt + 1) responses

/-- The waiter that `WaitUntilVolumeModifyedWithContext` builds. -/
def volumeModifyedWaiter : Waiter :=
  { name := "WaitUntilVolumeModifyed"
    maxAttempts := 40
    acceptors := [
      { state := .success, matcher := .pathAll, expected := "completed" },
      { state := .failure, matcher := .pathAny, expected := "failed" }] }

def WaitUntilVolumeModifyedWithContext (responses : List (List String)) : WaitOutcome :=
  volumeModifyedWaiter.waitLoop 1 responses

/-- A response ends the wait with success. -/
def completes (vals : List String) : Prop := vals ≠ [] ∧ ∀ v ∈ vals, v = "completed"

/-- A response ends the wait with failure. -/
def fails (vals : List String) : Prop := "failed" ∈ vals

/-! ## The watch waiter (volumeenlarge.go, `WaitUntilPVCModifyed`) -/

/-- The object of a watch event: a `*corev1.PersistentVolumeClaim` with the types of its
status conditions, or an object of another type. -/
inductive WatchObject where
  | persistentVolumeClaim (conditions : List String)
  | other
deriving DecidableEq, Repr

/-- How the goroutine leaves its `for event := range watchInterface.ResultChan()` loop: it has
sent an error on `pvcEventChannel`, it has returned without sending, or the result channel
was closed and the loop ran to its end. -/
inductive WatchLoopExit where
  | sent (err : String)
  | returned
  | drained
deriving DecidableEq, Repr

def watchLoop : List WatchObject → WatchLoopExit
  | [] => .drained
  | .other :: _ => .sent "Unknown PVC event type"
  | .persistentVolumeClaim conditions :: events =>
    if conditions.length > 0 then watchLoop events else .returned

/-- `WaitUntilPVCModifyed` once the watch is established, as a function of the events the
result channel delivers before it is closed and of the text of `ctx.Err()` once the context
is done. The result is the text of the returned error, `none` for `nil`. After a drained loop
the goroutine waits for `ctx.Done()` and sends `ctx.Err()`; a return without sending closes
`pvcEventChannel`, and the receive yields `nil`. -/
def WaitUntilPVCModifyed (events : List WatchObject) (ctxErr : String) : Option String :=
  let err : Option String :=
    match watchLoop events with
    | .sent e => some e
    | .returned => none
    | .drained => some ctxErr
  match err with
  | some e => if e = "context deadline exceeded" then some "ContextTimeout" else some e
  | none => none

/-- An event that carries at least one condition. -/
def hasCondition : WatchObject → Prop
  | .persistentVolumeClaim conditions => conditions ≠ []
  | .other => False

/-! ## `EnlargePVC` and `EnlargeVolumeByID` (volumeenlarge.go) -/

/-- Conversion of an integer to `int64`. -/
def wrapInt64 (x : Int) : Int := (x + 2 ^ 63) % 2 ^ 64 - 2 ^ 63

/-- A call of the cluster client. `patchPVC` carries the requested storage and the `DryRun`
field of its `PatchOptions`. -/
inductive K8sRequest where
  | getPVC (pvcNamespace pvc : String)
  | createVolumeSnapshot (pvcNamespace pvc : String)
  | patchPVC (pvcNamespace pvc storage : String) (dryRun : List String)
  | watchPVC (pvcNamespace pvc : String)
deriving DecidableEq, Repr

/-- The request changes the state of the cluster: a snapshot object is created, or a patch is
applied without the dry-run option. -/
def K8sRequest.changesState : K8sRequest → Bool
  | .getPVC _ _ => false
  | .createVolumeSnapshot _ _ => true
  | .patchPVC _ _ _ dryRun => !dryRun.contains "All"
  | .watchPVC _ _ => false

/-- What the cluster and the client library answer during one run of `EnlargePVC`. -/
structure K8sBackend where
  inClusterConfig : Option GoError
  newForConfig : Option GoError
  getPVC : Except GoError Int
  marshalSnapshot : Option GoError
  postSnapshot : Option GoError
  decodeSnapshot : Option GoError
  patchPVC : List String → String → Option GoError
  watchEvents : List WatchObject
  ctxErr : String

/-- The `if *createSnapshot` block of `EnlargePVC`: the requests issued and the error
returned from inside the block, if any. -/
def pvcSnapshotStep (k : K8sBackend) (pvc pvcNamespace : String) (createSnapshot : Bool) :
    List K8sRequest × Option GoError :=
  if createSnapshot then
    match k.marshalSnapshot with
    | some e => ([], some e)
    | none =>
      match k.postSnapshot with
      | some e => ([.createVolumeSnapshot pvcNamespace pvc], some e)
      | none => ([.createVolumeSnapshot pvcNamespace pvc], k.decodeSnapshot)
  else ([], none)

/-- Lines 112 to 149 of `EnlargePVC`: the new size, the patch with its dry-run option, and the
optional wait. -/
def pvcResizeStep (percentageIncrease : Int → Int → Int) (k : K8sBackend)
    (pvc pvcNamespace : String) (percents currentSizeInB : Int)
    (dryRun waitForModifying : Bool) : List K8sRequest × Option GoError :=
  let currentSizeInGB := Int.tdiv currentSizeInB 1073741824
  let newSize :=
    toString (wrapInt64 (currentSizeInGB + percentageIncrease currentSizeInGB percents))
  let dryRunOption := if dryRun then ["All"] else []
  let patchCall := K8sRequest.patchPVC pvcNamespace pvc (newSize ++ "Gi") dryRunOption
  match k.patchPVC dryRunOption (newSize ++ "Gi") with
  | none =>
    if dryRun then ([patchCall], some (.plain "DryRunOperation"))
    else if waitForModifying then
      ([patchCall, .watchPVC pvcNamespace pvc],
        (WaitUntilPVCModifyed k.watchEvents k.ctxErr).map GoError.plain)
    else ([patchCall], none)
  | some e => ([patchCall], some e)

/-- The function `EnlargePVC`: the calls of the cluster client in the order they are made,
and the returned error. `percentageIncrease` is passed in. -/
def EnlargePVC (percentageIncrease : Int → Int → Int) (k : K8sBackend) (pvc pvcNamespace : String)
    (percents : Int) (createSnapshot dryRun waitForModifying : Bool) :
    List K8sRequest × Option GoError :=
  match k.inClusterConfig with
  | some e => ([], some e)
  | none =>
  match k.newForConfig with
  | some e => ([], some e)
  | none =>
  match k.getPVC with
  | .error e => ([.getPVC pvcNamespace pvc], some e)
  | .ok currentSizeInB =>
  match pvcSnapshotStep k pvc pvcNamespace createSnapshot with
  | (snapshotCalls, some e) => (.getPVC pvcNamespace pvc :: snapshotCalls, some e)
  | (snapshotCalls, none) =>
    let resize := pvcResizeStep percentageIncrease k pvc pvcNamespace percents currentSizeInB
      dryRun waitForModifying
    (.getPVC pvcNamespace pvc :: snapshotCalls ++ resize.1, resize.2)

/-- A call of the EC2 client. -/
inductive Ec2Request where
  | createSnapshot (volumeID : String)
  | waitUntilSnapshotCompleted (snapshotID : String)
  | describeVolumes (volumeID : String)
  | modifyVolume (volumeID : String) (size : Int) (dryRun : Bool)
  | waitUntilVolumeModifyed (volumeID : String)
deriving DecidableEq, Repr

/-- The request changes the state of the account: a snapshot is created, or a volume is
modified without the dry-run option. -/
def Ec2Request.changesState : Ec2Request → Bool
  | .createSnapshot _ => true
  | .waitUntilSnapshotCompleted _ => false
  | .describeVolumes _ => false
  | .modifyVolume _ _ dryRun => !dryRun
  | .waitUntilVolumeModifyed _ => false

/-- What EC2 answers during one run of `EnlargeVolumeByID`: `describeVolumes` gives the sizes
of the volumes in the response, `modifications` the responses seen by the polling waiter. -/
structure Ec2Backend where
  createSnapshot : Except GoError String
  waitUntilSnapshotCompleted : Option GoError
  describeVolumes : Except GoError (List Int)
  modifyVolume : Bool → Int → Option GoError
  modifications : List (List String)

/-- Outcome of `EnlargeVolumeByID`: it returned an error or `nil`, or it panicked on
`volumeInfo.Volumes[0]`. -/
inductive Ec2Outcome where
  | returned (err : Option GoError)
  | panicked
deriving DecidableEq, Repr

/-- The error that `WaitUntilVolumeModifyedWithContext` returns, as `ebsWaitForModifying`
passes it on. When the responses run out before the waiter has decided, the context ends the
wait. -/
def ebsWaitForModifying (responses : List (List String)) : Option GoError :=
  match WaitUntilVolumeModifyedWithContext responses with
  | .succeeded => none
  | .failed => some (.aws "ResourceNotReady" "failed waiting for successful resource state")
  | .notReady => some (.aws "ResourceNotReady" "exceeded wait attempts")
  | .polling => some (.aws "RequestCanceled" "waiter context canceled")

/-- The `if *createSnapshot` block of `EnlargeVolumeByID`. -/
def ec2SnapshotStep (b : Ec2Backend) (volumeID : String) (createSnapshot : Bool) :
    List Ec2Request × Option GoError :=
  if createSnapshot then
    match b.createSnapshot with
    | .error e => ([.createSnapshot volumeID], some e)
    | .ok snapshotID =>
      ([.createSnapshot volumeID, .waitUntilSnapshotCompleted snapshotID],
        b.waitUntilSnapshotCompleted)
  else ([], none)

/-- Lines 184 to 222 of `EnlargeVolumeByID`: the size of the volume, the new size, the
modification with its dry-run flag, and the optional wait. -/
def ec2ResizeStep (percentageIncrease : Int → Int → Int) (b : Ec2Backend) (volumeID : String)
    (percents : Int) (dryRun waitForModifying : Bool) : List Ec2Request × Ec2Outcome :=
  match b.describeVolumes with
  | .error e => ([.describeVolumes volumeID], .returned (some e))
  | .ok [] => ([.describeVolumes volumeID], .panicked)
  | .ok (size :: _) =>
    let newSize := wrapInt64 (size + percentageIncrease size percents)
    let calls := [Ec2Request.describeVolumes volumeID, .modifyVolume volumeID newSize dryRun]
    match b.modifyVolume dryRun newSize with
    | some e => (calls, .returned (some e))
    | none =>
      if waitForModifying then
        (calls ++ [.waitUntilVolumeModifyed volumeID],
          .returned (ebsWaitForModifying b.modifications))
      else (calls, .returned none)

/-- The function `EnlargeVolumeByID`: the calls of the EC2 client in the order they are made,
and the outcome. `percentageIncrease` is passed in. -/
def EnlargeVolumeByID (percentageIncrease : Int → Int → Int) (b : Ec2Backend) (volumeID : String)
    (percents : Int) (createSnapshot dryRun waitForModifying : Bool) :
    List Ec2Request × Ec2Outcome :=
  match ec2SnapshotStep b volumeID createSnapshot with
  | (snapshotCalls, some e) => (snapshotCalls, .returned (some e))
  | (snapshotCalls, none) =>
    let resize := ec2ResizeStep percentageIncrease b volumeID percents dryRun waitForModifying
    (snapshotCalls ++ resize.1, resize.2)

/-- A backend of `EnlargePVC` on which every call succeeds. -/
def healthyCluster : K8sBackend :=
  { inClusterConfig := none
    newForConfig := none
    getPVC := .ok 10737418240
    marshalSnapshot := none
    postSnapshot := none
    decodeSnapshot := none
    patchPVC := fun _ _ => none
    watchEvents := [.persistentVolumeClaim []]
    ctxErr := "context deadline exceeded" }

/-- A backend of `EnlargeVolumeByID` that answers a dry-run `ModifyVolume` the way EC2 does
when the request would have succeeded, with the error code `DryRunOperation`. -/
def healthyEc2 : Ec2Backend :=
  { createSnapshot := .ok "snap-0123"
    waitUntilSnapshotCompleted := none
    describeVolumes := .ok [10]
    modifyVolume := fun dryRun _ =>
      if dryRun then some (.aws "DryRunOperation" "Request would have succeeded, but DryRun flag is set.")
      else none
    modifications := [["completed"]] }

/-- The exact ceiling of `s * p / 100` for `s * p ≥ 0`; it stands in for `percentageIncrease`
in the examples of the dry run. -/
def ceilPercent (s p : Int) : Int := (s * p + 99) / 100

/-- The lookup in the words of the specification: the first record, in the order of the
lines, whose second field is the requested mount point; its first and third fields. -/
def firstRecordAt (mountPointsFile mountPoint : List Char) : Option (List Char × List Char) :=
  (mountPointsFile.splitOn '\n').findSome? fun line =>
    match line.splitOn ' ' with
    | device :: point :: deviceFileSystem :: _ =>
      if point = mountPoint then some (device, deviceFileSystem) else none
    | _ => none

/-- A mount table in which a FUSE view of the directory `/data` is listed before the volume
mounted at `/data`. -/
def demoMounts : List Char :=
  ("/dev/xvda1 / ext4 rw 0 0\n" ++
   "/data /mnt/view fuse rw 0 0\n" ++
   "/dev/xvdf /data ext4 rw 0 0\n").toList

instance completesDecidable : DecidablePred completes := fun vals => by
  unfold completes; infer_instance

instance failsDecidable : DecidablePred fails := fun vals => by
  unfold fails; infer_instance

instance hasConditionDecidable : DecidablePred hasCondition := fun e => by
  cases e <;> unfold hasCondition <;> infer_instance

/-! ## `percentageIncrease` (volumeenlarge.go)

The function computes in `float64`. A finite `float64` is embedded by its exact value, a sign
and a natural number times a power of two, and every operation by its exact result rounded to
the nearest value with a 53-bit significand, ties to the even significand (IEEE 754
binary64, the arithmetic of Go). Operands that come from `int64` values keep every
intermediate result far below the overflow threshold, so infinities and NaN do not arise. -/

/-- A finite `float64`: the value is `mant * 2 ^ exp`, negated when `neg` is set. -/
structure Float64 where
  neg : Bool
  mant : Nat
  exp : Int
deriving DecidableEq, Repr

/-- The number of binary digits of `n`, found in at most `fuel` halvings. -/
def bitLength : Nat → Nat → Nat
  | 0, _ => 0
  | fuel + 1, n => if n = 0 then 0 else bitLength fuel (n / 2) + 1

/-- The positive rational `n / d` rounded to `float64`: a significand and an exponent.
The exponent `e` is chosen with `2 ^ 52 ≤ n / (d * 2 ^ e) < 2 ^ 53`, but not below the exponent
of the subnormal numbers, and the quotient is rounded to the nearest integer, a tie to the
even one. -/
def roundRatio (n d : Nat) : Nat × Int :=
  let k : Int := (bitLength n n : Int) - (bitLength d d : Int)
  let scaled : Int → Nat × Nat := fun e =>
    if 0 ≤ e then (n, d * 2 ^ e.toNat) else (n * 2 ^ (-e).toNat, d)
  let e0 : Int := k - 52
  let e1 : Int := if (scaled e0).1 / (scaled e0).2 < 2 ^ 52 then e0 - 1 else e0
  let e : Int := if e1 < -1074 then -1074 else e1
  let a := (scaled e).1
  let b := (scaled e).2
  let q := a / b
  let r := a % b
  let m := if 2 * r < b then q else if b < 2 * r then q + 1 else if q % 2 = 0 then q else q + 1
  (m, e)

/-- The rational `n / d` with the sign `neg`, rounded to `float64`. -/
def Float64.ofRatio (neg : Bool) (n d : Nat) : Float64 :=
  if n = 0 then { neg := neg, mant := 0, exp := 0 }
  else { neg := neg, mant := (roundRatio n d).1, exp := (roundRatio n d).2 }

/-- The conversion `float64(x)` of an `int64`. -/
def Float64.ofInt (x : Int) : Float64 :=
  Float64.ofRatio (decide (x < 0)) x.natAbs 1

/-- The quotient `a / b` for a divisor other than zero. -/
def Float64.div (a b : Float64) : Float64 :=
  let e := a.exp - b.exp
  if 0 ≤ e then Float64.ofRatio (a.neg != b.neg) (a.mant * 2 ^ e.toNat) b.mant
  else Float64.ofRatio (a.neg != b.neg) a.mant (b.mant * 2 ^ (-e).toNat)

/-- The product `a * b`. -/
def Float64.mul (a b : Float64) : Float64 :=
  let e := a.exp + b.exp
  if 0 ≤ e then Float64.ofRatio (a.neg != b.neg) (a.mant * b.mant * 2 ^ e.toNat) 1
  else Float64.ofRatio (a.neg != b.neg) (a.mant * b.mant) (2 ^ (-e).toNat)

/-- The integer that `math.Ceil` returns; as a `float64` it is exact. -/
def Float64.ceil (a : Float64) : Int :=
  if 0 ≤ a.exp then
    if a.neg then -((a.mant * 2 ^ a.exp.toNat : Nat) : Int) else ((a.mant * 2 ^ a.exp.toNat : Nat) : Int)
  else
    let d := 2 ^ (-a.exp).toNat
    if a.neg then -((a.mant / d : Nat) : Int) else (((a.mant + d - 1) / d : Nat) : Int)

/-- The conversion `int64(f)` of an integral `float64`. Go leaves the result to the
implementation when the value does not fit; the embedding takes the result on amd64, the
smallest `int64`. -/
def int64OfFloat (v : Int) : Int :=
  if -2 ^ 63 ≤ v ∧ v < 2 ^ 63 then v else -2 ^ 63

/-- The function `percentageIncrease`. -/
def percentageIncrease (currentPartitionSizeGB percentagesToIncrease : Int) : Int :=
  let toPercentages := Float64.div (Float64.ofInt currentPartitionSizeGB) (Float64.ofInt 100)
  let increased := Float64.mul toPercentages (Float64.ofInt percentagesToIncrease)
  let rounded := Float64.ceil increased
  int64OfFloat rounded

/-- A volume of 7 GB, on an account where every call succeeds. -/
def sevenGigEc2 : Ec2Backend := { healthyEc2 with describeVolumes := .ok [7] }

/-- A claim that requests 7 GiB, on a cluster where every call succeeds. -/
def sevenGigCluster : K8sBackend := { healthyCluster with getPVC := .ok 7516192768 }

/-! ## Device numbers (ebsvolumeid.go, lines 110 to 116)

`Rdev` is a `uint64`; it is embedded as a natural number. -/

def deviceMajorNumber (rdev : Nat) : Nat := rdev / 256

def deviceMinorNumber (rdev : Nat) : Nat := rdev % 256

/-- The path `*hostSysPath + "/dev/block/" + fmt.Sprintf("%d:%d", ...)`. -/
def deviceSysPath (hostSysPath : String) (rdev : Nat) : String :=
  hostSysPath ++ "/dev/block/" ++
    (toString (deviceMajorNumber rdev) ++ ":" ++ toString (deviceMinorNumber rdev))

/-- The major number in the Linux encoding of a device number, as `gnu_dev_major` of glibc and
`unix.Major` of golang.org/x/sys decode it: bits 8 to 19, and above them bits 44 to 63. -/
def linuxMajor (dev : Nat) : Nat :=
  dev / 2 ^ 8 % 2 ^ 12 + dev / 2 ^ 44 % 2 ^ 20 * 2 ^ 12

/-- The minor number in the Linux encoding of a device number, as `gnu_dev_minor` of glibc and
`unix.Minor` of golang.org/x/sys decode it: bits 0 to 7, and above them bits 20 to 43. -/
def linuxMinor (dev : Nat) : Nat :=
  dev % 2 ^ 8 + dev / 2 ^ 20 % 2 ^ 24 * 2 ^ 8

/-- The device number that encodes a major and a minor number (`unix.Mkdev`). -/
def linuxMkdev (major minor : Nat) : Nat :=
  major % 2 ^ 12 * 2 ^ 8 + major / 2 ^ 12 % 2 ^ 20 * 2 ^ 44 +
    (minor % 2 ^ 8 + minor / 2 ^ 8 % 2 ^ 24 * 2 ^ 20)

/-! ## The sysfs walk collects the leaves -/

theorem removeCurrent_perm (d : String) (R : List String) : (removeCurrent (d :: R)).Perm R := by
  rcases List.eq_nil_or_concat R with rfl | ⟨L, b, rfl⟩
  · simp [removeCurrent]
  · simp [removeCurrent, List.getD_cons_succ]
    exact (List.perm_append_singleton b L).symm

theorem boundedBelow_stable (join : String → String → String) (fs : String → DirState) :
    ∀ (k n : Nat) (d : String), boundedBelow join fs k d = true → k ≤ n →
    boundedBelow join fs n d = true ∧ subtreeSize join fs n d = subtreeSize join fs k d := by
  intro k
  induction k with
  | zero => intro n d h; simp [boundedBelow] at h
  | succ k ih =>
    intro n d h hkn
    obtain ⟨n, rfl⟩ : ∃ n', n = n' + 1 := ⟨n - 1, by omega⟩
    have hkn' : k ≤ n := by omega
    unfold boundedBelow at h ⊢
    unfold subtreeSize
    cases hs : slavesOf join fs d with
    | missing => simp
    | unreadable => simp [hs] at h
    | entries names =>
      simp only [hs, List.all_eq_true] at h ⊢
      refine ⟨fun name hn => (ih n _ (h name hn) hkn').1, ?_⟩
      congr 2
      apply List.map_congr_left
      intro name hn
      exact (ih n _ (h name hn) hkn').2

theorem subtreeSize_pos (join : String → String → String) (fs : String → DirState)
    (n : Nat) (d : String) : 0 < subtreeSize join fs n d := by
  cases n with
  | zero => simp [subtreeSize]
  | succ n => unfold subtreeSize; split <;> omega

theorem reachable_trans (join : String → String → String) (fs : String → DirState)
    {a b c : String} (hab : Reachable join fs a b) (hbc : Reachable join fs b c) :
    Reachable join fs a c := by
  induction hbc with
  | start => exact hab
  | child _ hs hn ih => exact Reachable.child ih hs hn

theorem reachable_cases (join : String → String → String) (fs : String → DirState)
    {a p : String} (h : Reachable join fs a p) :
    p = a ∨ ∃ names name, slavesOf join fs a = .entries names ∧ name ∈ names ∧
      Reachable join fs (childPath join a name) p := by
  induction h with
  | start => exact Or.inl rfl
  | @child d names name hd hs hn ih =>
    rcases ih with rfl | ⟨names', name', hs', hn', hr⟩
    · exact Or.inr ⟨names, name, hs, hn, Reachable.start⟩
    · exact Or.inr ⟨names', name', hs', hn', Reachable.child hr hs hn⟩

theorem leaves_of_leaf (join : String → String → String) (fs : String → DirState)
    {d p : String} (hd : isLeaf join fs d) :
    (Reachable join fs d p ∧ isLeaf join fs p) ↔ p = d := by
  constructor
  · rintro ⟨hr, -⟩
    rcases reachable_cases join fs hr with rfl | ⟨names, name, hs, hn, -⟩
    · rfl
    · rcases hd with hd | hd
      · rw [hd] at hs; cases hs
      · rw [hd] at hs; cases hs; simp at hn
  · rintro rfl; exact ⟨Reachable.start, hd⟩

theorem leaves_of_inner (join : String → String → String) (fs : String → DirState)
    {d p : String} {names : List String} (hs : slavesOf join fs d = .entries names)
    (hne : names ≠ []) :
    (Reachable join fs d p ∧ isLeaf join fs p) ↔
      ∃ c ∈ names.map (join (join d "slaves")), Reachable join fs c p ∧ isLeaf join fs p := by
  constructor
  · rintro ⟨hr, hl⟩
    rcases reachable_cases join fs hr with rfl | ⟨names', name, hs', hn, hr'⟩
    · rcases hl with hl | hl
      · rw [hl] at hs; cases hs
      · rw [hl] at hs; cases hs; exact absurd rfl hne
    · rw [hs] at hs'; cases hs'
      exact ⟨_, List.mem_map.2 ⟨name, hn, rfl⟩, hr', hl⟩
  · rintro ⟨c, hc, hr, hl⟩
    obtain ⟨name, hn, rfl⟩ := List.mem_map.1 hc
    exact ⟨reachable_trans join fs (Reachable.child Reachable.start hs hn) hr, hl⟩

/-- The walk from a worklist `W` whose entries all have bounded depth `N`: with fuel at least
the number of paths below the worklist it returns an empty worklist, and the returned list
holds what was accumulated before together with the leaves reachable from `W`. -/
theorem walk_collects (join : String → String → String) (fs : String → DirState) (N : Nat) :
    ∀ (m : Nat) (W A : List String),
    (∀ w ∈ W, boundedBelow join fs N w = true) →
    (W.map (subtreeSize join fs N)).sum ≤ m →
    ∃ devs, (∀ fuel, m ≤ fuel →
        getListOfSecondaryDevices join fs fuel W A = some (.returned [] devs)) ∧
      ∀ p, p ∈ devs ↔ p ∈ A ∨ ∃ w ∈ W, Reachable join fs w p ∧ isLeaf join fs p := by
  intro m
  induction m with
  | zero =>
    intro W A _ hm
    cases W with
    | nil => exact ⟨A, fun fuel _ => by simp [getListOfSecondaryDevices], by simp⟩
    | cons d R =>
      have := subtreeSize_pos join fs N d
      simp at hm; omega
  | succ m ih =>
    intro W A hb hm
    cases W with
    | nil => exact ⟨A, fun fuel _ => by simp [getListOfSecondaryDevices], by simp⟩
    | cons d R =>
      have hperm := removeCurrent_perm d R
      have hbd := hb d (List.mem_cons_self _ _)
      have hbR : ∀ w ∈ removeCurrent (d :: R), boundedBelow join fs N w = true :=
        fun w hw => hb w (List.mem_cons_of_mem _ (hperm.mem_iff.1 hw))
      have hsum : ((removeCurrent (d :: R)).map (subtreeSize join fs N)).sum
          = (R.map (subtreeSize join fs N)).sum := (hperm.map _).sum_eq
      have hpos := subtreeSize_pos join fs N d
      simp only [List.map_cons, List.sum_cons] at hm
      have leafCase : isLeaf join fs d →
          ∃ devs, (∀ fuel, m ≤ fuel → getListOfSecondaryDevices join fs fuel
              (removeCurrent (d :: R)) (A ++ [d]) = some (.returned [] devs)) ∧
            ∀ p, p ∈ devs ↔ p ∈ A ∨ ∃ w ∈ d :: R, Reachable join fs w p ∧ isLeaf join fs p := by
        intro hl
        obtain ⟨devs, hrun, hmem⟩ := ih (removeCurrent (d :: R)) (A ++ [d]) hbR (by omega)
        refine ⟨devs, hrun, fun p => ?_⟩
        rw [hmem p]
        simp only [List.mem_append, List.mem_singleton, List.mem_cons, exists_eq_or_imp,
          leaves_of_leaf join fs hl, hperm.mem_iff, or_assoc, List.not_mem_nil, false_or]
      obtain ⟨N', rfl⟩ : ∃ N', N = N' + 1 := by
        cases N with
        | zero => simp [boundedBelow] at hbd
        | succ N' => exact ⟨N', rfl⟩
      cases hs : slavesOf join fs d with
      | unreadable => simp [boundedBelow, hs] at hbd
      | missing =>
        obtain ⟨devs, hrun, hmem⟩ := leafCase (Or.inl hs)
        refine ⟨devs, fun fuel hf => ?_, hmem⟩
        obtain ⟨f, rfl⟩ : ∃ f, fuel = f + 1 := ⟨fuel - 1, by omega⟩
        have := hrun f (by omega)
        unfold slavesOf at hs
        simp only [getListOfSecondaryDevices, hs]
        exact this
      | entries names =>
        cases names with
        | nil =>
          obtain ⟨devs, hrun, hmem⟩ := leafCase (Or.inr hs)
          refine ⟨devs, fun fuel hf => ?_, hmem⟩
          obtain ⟨f, rfl⟩ : ∃ f, fuel = f + 1 := ⟨fuel - 1, by omega⟩
          have := hrun f (by omega)
          unfold slavesOf at hs
          simp only [getListOfSecondaryDevices, hs]
          exact this
        | cons s ss =>
          have hch : ∀ name ∈ s :: ss, boundedBelow join fs N' (childPath join d name) = true := by
            have := hbd
            unfold boundedBelow at this
            simpa only [hs, List.all_eq_true] using this
          have hsize : subtreeSize join fs (N' + 1) d
              = 1 + (((s :: ss).map (join (join d "slaves"))).map
                  (subtreeSize join fs (N' + 1))).sum := by
            conv_lhs => unfold subtreeSize
            simp only [hs, List.map_map]
            congr 2
            apply List.map_congr_left
            intro name hn
            exact ((boundedBelow_stable join fs N' (N' + 1) _ (hch name hn) (by omega)).2).symm
          obtain ⟨devs, hrun, hmem⟩ := ih
            (removeCurrent (d :: R) ++ (s :: ss).map (join (join d "slaves"))) A
            (by
              intro w hw
              rcases List.mem_append.1 hw with hw | hw
              · exact hbR w hw
              · obtain ⟨name, hn, rfl⟩ := List.mem_map.1 hw
                exact (boundedBelow_stable join fs N' (N' + 1) _ (hch name hn) (by omega)).1)
            (by
              rw [List.map_append, List.sum_append, hsum]
              omega)
          refine ⟨devs, fun fuel hf => ?_, fun p => ?_⟩
          · obtain ⟨f, rfl⟩ : ∃ f, fuel = f + 1 := ⟨fuel - 1, by omega⟩
            have := hrun f (by omega)
            unfold slavesOf at hs
            simp only [getListOfSecondaryDevices, hs]
            exact this
          · rw [hmem p]
            have hin := leaves_of_inner join fs (p := p) hs (List.cons_ne_nil s ss)
            constructor
            · rintro (h | ⟨w, hw, hP⟩)
              · exact Or.inl h
              · rcases List.mem_append.1 hw with hw | hw
                · exact Or.inr ⟨w, List.mem_cons_of_mem _ (hperm.mem_iff.1 hw), hP⟩
                · exact Or.inr ⟨d, List.mem_cons_self _ _, hin.2 ⟨w, hw, hP⟩⟩
            · rintro (h | ⟨w, hw, hP⟩)
              · exact Or.inl h
              · rcases List.mem_cons.1 hw with rfl | hw
                · obtain ⟨c, hc, hcP⟩ := hin.1 hP
                  exact Or.inr ⟨c, List.mem_append_right _ hc, hcP⟩
                · exact Or.inr ⟨w, List.mem_append_left _ (hperm.mem_iff.2 hw), hP⟩

/-- C1. When the hierarchy below `top` has bounded depth and no unreadable directory,
`getListOfSecondaryDevices([top], nil)` returns: from some amount of fuel on every run ends
with an empty worklist and the same device list, a path is in that list exactly when it is
reachable from `top` and its `slaves` directory is missing or empty, and no path of the list
has a non-empty `slaves` directory. -/
theorem getListOfSecondaryDevices_collects_leaves (join : String → String → String)
    (fs : String → DirState) (top : String) (depth : Nat)
    (h : boundedBelow join fs depth top = true) :
    ∃ fuel devicesPathsList,
      (∀ n, fuel ≤ n →
        getListOfSecondaryDevices join fs n [top] [] = some (.returned [] devicesPathsList)) ∧
      (∀ p, p ∈ devicesPathsList ↔ Reachable join fs top p ∧ isLeaf join fs p) ∧
      (∀ p ∈ devicesPathsList, ∀ names, slavesOf join fs p = .entries names → names = []) := by
  obtain ⟨devs, hrun, hmem⟩ := walk_collects join fs depth
    (subtreeSize join fs depth top) [top] []
    (by intro w hw; rw [List.mem_singleton] at hw; rw [hw]; exact h) (by simp)
  have hiff : ∀ p, p ∈ devs ↔ Reachable join fs top p ∧ isLeaf join fs p := by
    intro p
    rw [hmem p]
    simp
  refine ⟨_, devs, hrun, hiff, ?_⟩
  intro p hp names hs
  rcases ((hiff p).1 hp).2 with hl | hl
  · rw [hl] at hs; cases hs
  · rw [hl] at hs; cases hs; rfl

/-- C1, on a device-mapper node over two partitions. -/
theorem getListOfSecondaryDevices_collects_leaves_witness :
    boundedBelow slashJoin demoFs 2 "/sys/dev/block/253:0" = true ∧
    ∃ fuel devicesPathsList,
      (∀ n, fuel ≤ n → getListOfSecondaryDevices slashJoin demoFs n ["/sys/dev/block/253:0"] []
        = some (.returned [] devicesPathsList)) ∧
      (∀ p, p ∈ devicesPathsList ↔
        Reachable slashJoin demoFs "/sys/dev/block/253:0" p ∧ isLeaf slashJoin demoFs p) ∧
      (∀ p ∈ devicesPathsList, ∀ names,
        slavesOf slashJoin demoFs p = .entries names → names = []) :=
  ⟨by decide,
    getListOfSecondaryDevices_collects_leaves slashJoin demoFs "/sys/dev/block/253:0" 2
      (by decide)⟩

/-! ## Serial normalization -/

theorem findVol_vol (rest : List Char) :
    findVol ("vol".toList ++ rest) = some ([], dotStar rest) := by
  show findVol ('v' :: 'o' :: 'l' :: rest) = _
  simp [findVol, List.isPrefixOf]

theorem findVol_none_of_absent :
    ∀ (s : List Char), ¬ ("vol".toList <:+: s) → findVol s = none
  | [], _ => rfl
  | c :: cs, h => by
    have hcs : ¬ ("vol".toList <:+: cs) := fun hi => h (hi.trans (List.suffix_cons c cs).isInfix)
    have hp : "vol".toList.isPrefixOf (c :: cs) = false := by
      rw [Bool.eq_false_iff]
      intro hp
      exact h (List.isPrefixOf_iff_prefix.1 hp).isInfix
    simp only [findVol, hp, Bool.false_eq_true, if_false, findVol_none_of_absent cs hcs,
      Option.map_none']

theorem findVol_some_of_present :
    ∀ (s : List Char), "vol".toList <:+: s → (findVol s).isSome = true
  | [], h => by
    have := List.eq_nil_of_infix_nil h
    exact absurd this (by decide)
  | c :: cs, h => by
    by_cases hp : "vol".toList.isPrefixOf (c :: cs) = true
    · simp only [findVol, hp, if_true, Option.isSome_some]
    · rcases List.infix_cons_iff.1 h with h' | h'
      · exact absurd (List.isPrefixOf_iff_prefix.2 h') hp
      · have ih := findVol_some_of_present cs h'
        simp only [findVol, hp, if_false, Option.isSome_map', ih, Bool.false_eq_true]

theorem replaceAllLoop_no_match (fuel : Nat) (s : List Char) (h : findVol s = none) :
    replaceAllLoop fuel s = s := by
  cases fuel <;> simp [replaceAllLoop, h]

/-- A match of `vol(.*)` is not empty: what follows it is shorter than the text searched. -/
theorem findVol_post_length : ∀ (s pre group1 post : List Char),
    findVol s = some (pre, group1, post) → post.length < s.length
  | [], _, _, _, h => by simp [findVol] at h
  | c :: cs, pre, group1, post, h => by
    by_cases hp : "vol".toList.isPrefixOf (c :: cs) = true
    · simp only [findVol, hp, if_true, Option.some.injEq, Prod.mk.injEq, dotStar] at h
      obtain ⟨-, -, rfl⟩ := h
      have h1 := (List.dropWhile_suffix dotClass (l := List.drop 2 cs)).length_le
      have h2 : (List.drop 2 cs).length ≤ cs.length := by simp
      simp only [List.length_cons]
      omega
    · simp only [findVol, hp, if_false, Option.map_eq_some', Bool.false_eq_true] at h
      obtain ⟨⟨pre', group1', post'⟩, hm, heq⟩ := h
      simp only [Prod.mk.injEq] at heq
      obtain ⟨-, -, rfl⟩ := heq
      have := findVol_post_length cs pre' group1' post' hm
      simp only [List.length_cons]
      omega

/-- The loop of `ReplaceAllString` does not run out of fuel: any two amounts of fuel that are
at least the length of the text give the same result. -/
theorem replaceAllLoop_fuel : ∀ (fuel fuel' : Nat) (s : List Char),
    s.length ≤ fuel → s.length ≤ fuel' → replaceAllLoop fuel s = replaceAllLoop fuel' s
  | 0, fuel', s, h, _ => by
    have hs : s = [] := List.length_eq_zero.1 (by omega)
    subst hs
    cases fuel' <;> simp [replaceAllLoop, findVol]
  | fuel + 1, 0, s, _, h => by
    have hs : s = [] := List.length_eq_zero.1 (by omega)
    subst hs
    simp [replaceAllLoop, findVol]
  | fuel + 1, fuel' + 1, s, h, h' => by
    unfold replaceAllLoop
    cases hm : findVol s with
    | none => rfl
    | some m =>
      obtain ⟨pre, group1, post⟩ := m
      have hlt := findVol_post_length s pre group1 post hm
      simp only []
      rw [replaceAllLoop_fuel fuel fuel' post (by omega) (by omega)]

/-- The check of `volumeIDOfSerial` as the code has it: the fatal error is raised exactly
when `vol` occurs nowhere in the trimmed serial. -/
theorem volumeIDOfSerial_error_iff (parentDevice : String) (serial : List Char) :
    volumeIDOfSerial parentDevice serial
        = .error ("Device \"" ++ parentDevice ++ "\" is not an EBS volume.")
      ↔ ¬ ("vol".toList <:+: trimSpace serial) := by
  unfold volumeIDOfSerial findString
  constructor
  · intro h hin
    have hsome := findVol_some_of_present _ hin
    obtain ⟨m, hm⟩ := Option.isSome_iff_exists.1 hsome
    obtain ⟨pre, group1, post⟩ := m
    simp [hm] at h
  · intro h
    simp [findVol_none_of_absent _ h]

/-- C2, as the code has it. When the trimmed serial is `vol` followed by `rest`, and `vol`
does not occur again after the first line feed of `rest`, the normalization succeeds and the
volume ID is `vol-` followed by `rest`. -/
theorem volumeIDOfSerial_vol (parentDevice : String) (serial rest : List Char)
    (hvol : trimSpace serial = "vol".toList ++ rest)
    (hrest : ¬ ("vol".toList <:+: rest.dropWhile dotClass)) :
    volumeIDOfSerial parentDevice serial = .ok ("vol-".toList ++ rest) := by
  have hfind := findVol_vol rest
  have hpost := findVol_none_of_absent _ hrest
  unfold volumeIDOfSerial
  simp only [hvol]
  have h1 : findString ("vol".toList ++ rest) ≠ [] := by
    unfold findString
    rw [hfind]
    simp
  rw [if_neg h1]
  congr 1
  unfold replaceAllString
  have hlen : ("vol".toList ++ rest).length = (rest.length + 2) + 1 := by
    simp
  rw [hlen, replaceAllLoop, hfind]
  simp only [dotStar, replaceAllLoop_no_match _ _ hpost, List.nil_append, List.append_assoc,
    List.takeWhile_append_dropWhile]

/-- C2, on the serial of the specification, read with its trailing line feed. -/
theorem volumeIDOfSerial_vol_witness :
    trimSpace "vol0abcd1234\n".toList = "vol".toList ++ "0abcd1234".toList ∧
    ¬ ("vol".toList <:+: "0abcd1234".toList.dropWhile dotClass) ∧
    volumeIDOfSerial "xvdf" "vol0abcd1234\n".toList = .ok "vol-0abcd1234".toList :=
  ⟨by decide, by decide,
    volumeIDOfSerial_vol "xvdf" "vol0abcd1234\n".toList "0abcd1234".toList
      (by decide) (by decide)⟩

/-- C2 fails as stated: the two-line serial `vol0`, `vol1` begins with `vol`, and its volume ID
is not `vol-` followed by the rest of the serial; a hyphen is inserted in the second line
too. -/
theorem volumeIDOfSerial_second_line :
    trimSpace "vol0\nvol1".toList = "vol".toList ++ "0\nvol1".toList ∧
    volumeIDOfSerial "xvdf" "vol0\nvol1".toList = .ok "vol-0\nvol-1".toList ∧
    volumeIDOfSerial "xvdf" "vol0\nvol1".toList ≠ .ok ("vol-".toList ++ "0\nvol1".toList) := by
  decide

/-- C3, at the failing input. The serial `xvol0abcd1234` does not begin with `vol`, yet the
check passes and a volume ID is produced for it. -/
theorem volumeIDOfSerial_inner_vol :
    ¬ ("vol".toList <+: trimSpace "xvol0abcd1234\n".toList) ∧
    volumeIDOfSerial "xvdf" "xvol0abcd1234\n".toList = .ok "xvol-0abcd1234".toList := by
  decide

/-! ## Parent devices -/

theorem appendDeviceIfUniqueLoop_eq (l : List String) (p : String) :
    ∀ items, appendDeviceIfUniqueLoop l p items = if p ∈ items then l else l ++ [p]
  | [] => by simp [appendDeviceIfUniqueLoop]
  | item :: items => by
    unfold appendDeviceIfUniqueLoop
    by_cases h : item = p
    · simp [h]
    · have h' : ¬ p = item := fun e => h e.symm
      simp [h, h', appendDeviceIfUniqueLoop_eq l p items]

theorem appendDeviceIfUnique_eq (l : List String) (p : String) :
    appendDeviceIfUnique l p = if p ∈ l then l else l ++ [p] :=
  appendDeviceIfUniqueLoop_eq l p l

/-- C4. Folding `appendDeviceIfUnique` over a list of names from the empty list gives a list
without duplicates, with the same members as the input, in which a name stands before
another exactly as their first occurrences do in the input. -/
theorem foldl_appendDeviceIfUnique (candidates : List String) :
    (candidates.foldl appendDeviceIfUnique []).Nodup ∧
    (∀ name, name ∈ candidates.foldl appendDeviceIfUnique [] ↔ name ∈ candidates) ∧
    (candidates.foldl appendDeviceIfUnique []).Pairwise
      (fun a b => candidates.indexOf a < candidates.indexOf b) := by
  induction candidates using List.reverseRecOn with
  | nil => simp
  | append_singleton ys x ih =>
    obtain ⟨hnd, hmem, hord⟩ := ih
    rw [List.foldl_append, List.foldl_cons, List.foldl_nil, appendDeviceIfUnique_eq]
    have hmono : ∀ a b, a ∈ ys → b ∈ ys → ys.indexOf a < ys.indexOf b →
        (ys ++ [x]).indexOf a < (ys ++ [x]).indexOf b := by
      intro a b ha hb h
      rwa [List.indexOf_append_of_mem ha, List.indexOf_append_of_mem hb]
    have hord' : (List.foldl appendDeviceIfUnique [] ys).Pairwise
        (fun a b => (ys ++ [x]).indexOf a < (ys ++ [x]).indexOf b) := by
      refine hord.imp_of_mem ?_
      intro a b ha hb h
      exact hmono a b ((hmem a).1 ha) ((hmem b).1 hb) h
    by_cases hx : x ∈ List.foldl appendDeviceIfUnique [] ys
    · rw [if_pos hx]
      refine ⟨hnd, fun name => ?_, hord'⟩
      rw [hmem name, List.mem_append, List.mem_singleton]
      constructor
      · exact Or.inl
      · rintro (h | rfl)
        · exact h
        · exact (hmem _).1 hx
    · rw [if_neg hx]
      have hxy : x ∉ ys := fun h => hx ((hmem x).2 h)
      refine ⟨?_, fun name => ?_, ?_⟩
      · exact List.nodup_append.2 ⟨hnd, List.nodup_singleton x, by
          intro a ha hax
          rw [List.mem_singleton] at hax
          exact hx (hax ▸ ha)⟩
      · simp only [List.mem_append, List.mem_singleton, hmem name]
      · rw [List.pairwise_append]
        refine ⟨hord', List.pairwise_singleton _ _, ?_⟩
        intro a ha b hb
        rw [List.mem_singleton] at hb
        subst hb
        have ha' := (hmem a).1 ha
        rw [List.indexOf_append_of_mem ha', List.indexOf_append_of_not_mem hxy]
        simp only [List.indexOf_cons_self, add_zero]
        exact List.indexOf_lt_length.2 ha'

theorem findSome_reverse_range {β : Type} (f : Nat → Option β) (v : β) (j : Nat)
    (hj : f j = some v) : ∀ n, j ≤ n → (∀ i, j < i → i ≤ n → f i = none) →
    (List.range (n + 1)).reverse.findSome? f = some v := by
  intro n
  induction n with
  | zero =>
    intro hjn _
    have : j = 0 := by omega
    subst this
    show List.findSome? f [0] = some v
    simp [hj]
  | succ n ih =>
    intro hjn hnone
    rw [List.range_succ, List.reverse_append, List.reverse_singleton, List.singleton_append,
      List.findSome?_cons]
    by_cases hEq : j = n + 1
    · subst hEq; rw [hj]
    · rw [hnone (n + 1) (by omega) le_rfl]
      exact ih (by omega) (fun i h1 h2 => hnone i h1 (by omega))

theorem all_dotClass_iff (s : List Char) : s.all dotClass = true ↔ '\n' ∉ s := by
  rw [List.all_eq_true]
  constructor
  · intro h hmem
    simpa [dotClass] using h _ hmem
  · intro h c hc
    simp only [dotClass, bne_iff_ne, ne_eq]
    rintro rfl
    exact h hc

/-- A greedy repetition stops at the split `a`, `b` when the rest of the pattern matches there
and at no longer split. -/
theorem greedyRun_eq {β : Type} (cls : Char → Bool) (least : Nat) (s a b : List Char)
    (k : List Char → List Char → Option β) (v : β) (hs : s = a ++ b)
    (hl : least ≤ a.length) (ha : a.all cls = true) (hk : k a b = some v)
    (hlonger : ∀ a' b', s = a' ++ b' → a.length < a'.length → k a' b' = none) :
    greedyRun cls least s k = some v := by
  subst hs
  unfold greedyRun
  apply findSome_reverse_range _ v a.length
  · simp only [List.take_left', List.drop_left', hl, ha, and_self, if_true, hk]
  · simp
  · intro i h1 _
    have hlen : a.length < (List.take i (a ++ b)).length := by
      rw [List.length_take]
      simp only [List.length_append] at *
      omega
    rw [hlonger _ _ (List.take_append_drop i (a ++ b)).symm hlen]
    simp

theorem greedyRun_none {β : Type} (cls : Char → Bool) (least : Nat) (s : List Char)
    (k : List Char → List Char → Option β)
    (hk : ∀ a' b', s = a' ++ b' → k a' b' = none) : greedyRun cls least s k = none := by
  unfold greedyRun
  rw [List.findSome?_eq_none_iff]
  intro i _
  rw [hk _ _ (List.take_append_drop i s).symm]
  simp

theorem greedyRun_end (u group1 : List Char) (hu : u.all dotClass = true) :
    greedyRun dotClass 0 u (fun _ r3 => if r3 = [] then some group1 else none)
      = some group1 := by
  apply greedyRun_eq dotClass 0 u u [] _ group1 (by simp) (Nat.zero_le _) hu (by simp)
  intro a' b' h hlt
  have := congrArg List.length h
  simp only [List.length_append] at this
  omega

theorem split_longer {p x a' b' : List Char} (h : p ++ x = a' ++ b')
    (hlt : p.length < a'.length) : ∃ c d, x = c :: d ++ b' := by
  rcases List.append_eq_append_iff.1 h with ⟨c, rfl, hx⟩ | ⟨c, rfl, _⟩
  · cases c with
    | nil => simp at hlt
    | cons c d => exact ⟨c, d, hx⟩
  · simp at hlt

theorem no_slash_after {c t q r : List Char} (h : q ++ '/' :: r = c ++ '/' :: t)
    (hq : '/' ∉ q) (hr : '/' ∉ r) : '/' ∉ t := by
  have := congrArg (List.count '/') h
  simp only [List.count_append, List.count_cons_self, List.count_eq_zero_of_not_mem hq,
    List.count_eq_zero_of_not_mem hr] at this
  exact List.count_eq_zero.1 (by omega)

theorem parentDeviceMatch_eq (p q r : List Char) (hq : '/' ∉ q) (hr : '/' ∉ r)
    (hnl : '\n' ∉ p ++ '/' :: (q ++ '/' :: r)) :
    parentDeviceMatch (p ++ '/' :: (q ++ '/' :: r)) = some q := by
  have hp : p.all dotClass = true := (all_dotClass_iff p).2 fun h => hnl (by simp [h])
  have hqn : q.all dotClass = true := (all_dotClass_iff q).2 fun h => hnl (by simp [h])
  have hrn : r.all dotClass = true := (all_dotClass_iff r).2 fun h => hnl (by simp [h])
  have hinner : greedyRun dotClass 0 (q ++ '/' :: r) (fun group1 r2 =>
      match r2 with
      | [] => none
      | c2 :: u =>
        if c2 = '/' then
          greedyRun dotClass 0 u fun _ r3 => if r3 = [] then some group1 else none
        else none) = some q := by
    apply greedyRun_eq dotClass 0 _ q ('/' :: r) _ q rfl (Nat.zero_le _) hqn
    · simp [greedyRun_end r q hrn]
    · intro a' b' h hlt
      obtain ⟨c, d, hx⟩ := split_longer h hlt
      cases b' with
      | nil => rfl
      | cons c2 u =>
        have hc2 : c2 ≠ '/' := by
          rintro rfl
          have hmem : '/' ∈ r := by
            have : r = d ++ '/' :: u := by
              simp only [List.cons_append, List.cons.injEq] at hx
              exact hx.2
            rw [this]; simp
          exact hr hmem
        simp [hc2]
  unfold parentDeviceMatch
  apply greedyRun_eq dotClass 0 _ p ('/' :: (q ++ '/' :: r)) _ q rfl (Nat.zero_le _) hp
  · simp only [if_true]
    exact hinner
  · intro a' b' h hlt
    obtain ⟨c, d, hx⟩ := split_longer h hlt
    cases b' with
    | nil => rfl
    | cons c1 t =>
      by_cases hc1 : c1 = '/'
      · subst hc1
        simp only [if_true]
        have hqr : q ++ '/' :: r = d ++ '/' :: t := by
          simp only [List.cons_append, List.cons.injEq] at hx
          exact hx.2
        have hnot := no_slash_after hqr hq hr
        apply greedyRun_none
        intro a'' b'' hsplit
        cases b'' with
        | nil => rfl
        | cons c2 u =>
          have hc2 : c2 ≠ '/' := by
            rintro rfl
            exact hnot (by rw [hsplit]; simp)
          simp [hc2]
      · simp [hc1]

/-- C5, as the code has it. For a path `prefix/parent/leaf` in which `parent` and `leaf`
contain no `/` and which contains no line feed, the pattern rewrite gives `parent`. -/
theorem parentDeviceOf_second_to_last (pre parent leaf : List Char)
    (hparent : '/' ∉ parent) (hleaf : '/' ∉ leaf)
    (hline : '\n' ∉ pre ++ '/' :: (parent ++ '/' :: leaf)) :
    parentDeviceOf (pre ++ '/' :: (parent ++ '/' :: leaf)) = parent := by
  unfold parentDeviceOf
  rw [parentDeviceMatch_eq pre parent leaf hparent hleaf hline]

/-- C5, on a partition path of the kernel device tree. -/
theorem parentDeviceOf_second_to_last_witness :
    '/' ∉ "xvdf".toList ∧ '/' ∉ "xvdf1".toList ∧
    '\n' ∉ "/sys/devices/vbd-51792/block".toList ++ '/' :: ("xvdf".toList ++ '/' :: "xvdf1".toList) ∧
    parentDeviceOf ("/sys/devices/vbd-51792/block".toList ++
      '/' :: ("xvdf".toList ++ '/' :: "xvdf1".toList)) = "xvdf".toList :=
  ⟨by decide, by decide, by decide,
    parentDeviceOf_second_to_last "/sys/devices/vbd-51792/block".toList "xvdf".toList
      "xvdf1".toList (by decide) (by decide) (by decide)⟩

/-- C5 fails as stated: a path of the form `prefix/parent/leaf` with a line feed in its
first part is not matched by the pattern, and the rewrite returns the whole path. -/
theorem parentDeviceOf_line_feed :
    '/' ∉ "xvdf".toList ∧ '/' ∉ "xvdf1".toList ∧
    parentDeviceOf ("/sys/dev\nices/block".toList ++ '/' :: ("xvdf".toList ++ '/' :: "xvdf1".toList))
      = "/sys/dev\nices/block/xvdf/xvdf1".toList ∧
    parentDeviceOf ("/sys/dev\nices/block".toList ++ '/' :: ("xvdf".toList ++ '/' :: "xvdf1".toList))
      ≠ "xvdf".toList := by
  decide

/-! ## Mount lookup -/

/-- C6, at the failing input. The first record whose mount-point field is `/data` is the one
of `/dev/xvdf`, with `ext4`; the lookup matches across the end of the first line, where `/data`
is the device field of the second record, and takes its device and filesystem from there. -/
theorem mountLookup_device_field :
    firstRecordAt demoMounts "/data".toList = some ("/dev/xvdf".toList, "ext4".toList) ∧
    mountLookup demoMounts "/data".toList = some (.found "0\n/data".toList "fuse".toList) := by
  decide

/-! ## The polling waiter -/

theorem acceptorsOutcome_volumeModifyed (vals : List String) :
    acceptorsOutcome volumeModifyedWaiter.acceptors vals =
      if completes vals then some .succeeded
      else if fails vals then some .failed else none := by
  have h1 : (WaiterAcceptor.matches
      { state := .success, matcher := .pathAll, expected := "completed" } vals = true)
      ↔ completes vals := by
    cases vals <;> simp [WaiterAcceptor.matches, completes]
  have h2 : (WaiterAcceptor.matches
      { state := .failure, matcher := .pathAny, expected := "failed" } vals = true)
      ↔ fails vals := by
    simp only [WaiterAcceptor.matches, fails, List.any_eq_true, decide_eq_true_eq]
    constructor
    · rintro ⟨x, hx, rfl⟩
      exact hx
    · intro h
      exact ⟨_, h, rfl⟩
  simp only [volumeModifyedWaiter, acceptorsOutcome, h1, h2]

theorem waitLoop_skip : ∀ (pre : List (List String)) (attempt : Nat) (rest : List (List String)),
    (∀ x ∈ pre, ¬ completes x ∧ ¬ fails x) → attempt + pre.length ≤ 40 →
    volumeModifyedWaiter.waitLoop attempt (pre ++ rest)
      = volumeModifyedWaiter.waitLoop (attempt + pre.length) rest
  | [], attempt, rest, _, _ => by simp
  | x :: pre, attempt, rest, hpre, hlen => by
    have hx := hpre x (List.mem_cons_self _ _)
    simp only [List.length_cons] at hlen
    have hne : attempt ≠ 40 := by omega
    have ih := waitLoop_skip pre (attempt + 1) rest
      (fun y hy => hpre y (List.mem_cons_of_mem _ hy)) (by omega)
    rw [List.cons_append, Waiter.waitLoop, acceptorsOutcome_volumeModifyed, if_neg hx.1,
      if_neg hx.2]
    simp only [List.length_cons]
    rw [show attempt + (pre.length + 1) = attempt + 1 + pre.length by omega, ← ih]
    simp [volumeModifyedWaiter, hne]

/-- C7, as the SDK has it. The wait succeeds at the first response that holds at least one
state and only `completed` states, fails at the first response that holds a `failed` state,
stops as not ready after 40 responses with neither, and goes on polling until then. -/
theorem WaitUntilVolumeModifyedWithContext_outcome :
    (∀ pre vals post, pre.length < 40 → (∀ x ∈ pre, ¬ completes x ∧ ¬ fails x) →
      completes vals →
      WaitUntilVolumeModifyedWithContext (pre ++ vals :: post) = .succeeded) ∧
    (∀ pre vals post, pre.length < 40 → (∀ x ∈ pre, ¬ completes x ∧ ¬ fails x) →
      fails vals →
      WaitUntilVolumeModifyedWithContext (pre ++ vals :: post) = .failed) ∧
    (∀ pre post, pre.length = 40 → (∀ x ∈ pre, ¬ completes x ∧ ¬ fails x) →
      WaitUntilVolumeModifyedWithContext (pre ++ post) = .notReady) ∧
    (∀ pre, pre.length < 40 → (∀ x ∈ pre, ¬ completes x ∧ ¬ fails x) →
      WaitUntilVolumeModifyedWithContext pre = .polling) := by
  refine ⟨?_, ?_, ?_, ?_⟩
  · intro pre vals post hlen hpre hc
    unfold WaitUntilVolumeModifyedWithContext
    rw [waitLoop_skip pre 1 _ hpre (by omega), Waiter.waitLoop,
      acceptorsOutcome_volumeModifyed, if_pos hc]
  · intro pre vals post hlen hpre hf
    have hc : ¬ completes vals := by
      rintro ⟨-, hall⟩
      exact absurd (hall _ hf) (by decide)
    unfold WaitUntilVolumeModifyedWithContext
    rw [waitLoop_skip pre 1 _ hpre (by omega), Waiter.waitLoop,
      acceptorsOutcome_volumeModifyed, if_neg hc, if_pos hf]
  · intro pre post hlen hpre
    obtain ⟨init, last, rfl⟩ : ∃ init last, pre = init ++ [last] := by
      rcases List.eq_nil_or_concat pre with rfl | ⟨init, last, rfl⟩
      · simp at hlen
      · exact ⟨init, last, List.concat_eq_append init last⟩
    have hinit : init.length = 39 := by simpa using hlen
    have hlast := hpre last (by simp)
    unfold WaitUntilVolumeModifyedWithContext
    rw [List.append_assoc, waitLoop_skip init 1 _
      (fun x hx => hpre x (List.mem_append_left _ hx)) (by omega), hinit]
    rw [List.singleton_append, Waiter.waitLoop, acceptorsOutcome_volumeModifyed,
      if_neg hlast.1, if_neg hlast.2]
    simp [volumeModifyedWaiter]
  · intro pre hlen hpre
    unfold WaitUntilVolumeModifyedWithContext
    have := waitLoop_skip pre 1 [] hpre (by omega)
    rw [List.append_nil] at this
    rw [this, Waiter.waitLoop]

/-- C7, on the three responses of the specification. -/
theorem WaitUntilVolumeModifyedWithContext_outcome_witness :
    WaitUntilVolumeModifyedWithContext ([] ++ ["completed", "completed"] :: []) = .succeeded ∧
    WaitUntilVolumeModifyedWithContext ([] ++ ["completed", "failed"] :: []) = .failed ∧
    WaitUntilVolumeModifyedWithContext (List.replicate 40 ["modifying"] ++ []) = .notReady :=
  ⟨WaitUntilVolumeModifyedWithContext_outcome.1 [] ["completed", "completed"] []
      (by decide) (by simp) (by decide),
    WaitUntilVolumeModifyedWithContext_outcome.2.1 [] ["completed", "failed"] []
      (by decide) (by simp) (by decide),
    WaitUntilVolumeModifyedWithContext_outcome.2.2.1 (List.replicate 40 ["modifying"]) []
      (by decide) (by decide)⟩

/-- C7 fails as stated: in a response without any state all states are `completed`, and the
wait does not succeed at it; a later failure or the attempt limit decides. -/
theorem WaitUntilVolumeModifyedWithContext_empty_response :
    (∀ v ∈ ([] : List String), v = "completed") ∧
    WaitUntilVolumeModifyedWithContext [[], ["failed"]] = .failed ∧
    WaitUntilVolumeModifyedWithContext (List.replicate 40 []) = .notReady := by
  decide

/-! ## The watch waiter -/

theorem watchLoop_skip : ∀ (pre rest : List WatchObject), (∀ e ∈ pre, hasCondition e) →
    watchLoop (pre ++ rest) = watchLoop rest
  | [], _, _ => rfl
  | .other :: _, _, h => absurd (h _ (List.mem_cons_self _ _)) (by simp [hasCondition])
  | .persistentVolumeClaim conditions :: pre, rest, h => by
    have hc : conditions ≠ [] := h _ (List.mem_cons_self _ _)
    have hlen : conditions.length > 0 := List.length_pos.2 hc
    rw [List.cons_append, watchLoop, if_pos hlen]
    exact watchLoop_skip pre rest (fun e he => h e (List.mem_cons_of_mem _ he))

/-- C8. The first event that is a claim without conditions makes the wait return `nil`; the
first event that is not a claim makes it return `Unknown PVC event type`; events with a
condition do not end the wait; and when the events end without a deciding one and the
context reaches its deadline, the wait returns `ContextTimeout`. -/
theorem WaitUntilPVCModifyed_outcome :
    (∀ pre post ctxErr, (∀ e ∈ pre, hasCondition e) →
      WaitUntilPVCModifyed (pre ++ .persistentVolumeClaim [] :: post) ctxErr = none) ∧
    (∀ pre post ctxErr, (∀ e ∈ pre, hasCondition e) →
      WaitUntilPVCModifyed (pre ++ .other :: post) ctxErr = some "Unknown PVC event type") ∧
    (∀ events, (∀ e ∈ events, hasCondition e) →
      WaitUntilPVCModifyed events "context deadline exceeded" = some "ContextTimeout") := by
  refine ⟨?_, ?_, ?_⟩
  · intro pre post ctxErr hpre
    unfold WaitUntilPVCModifyed
    rw [watchLoop_skip pre _ hpre]
    simp [watchLoop]
  · intro pre post ctxErr hpre
    unfold WaitUntilPVCModifyed
    rw [watchLoop_skip pre _ hpre]
    simp [watchLoop]
  · intro events hev
    unfold WaitUntilPVCModifyed
    have := watchLoop_skip events [] hev
    rw [List.append_nil] at this
    rw [this]
    simp [watchLoop]

/-- C8, on a resize that reports two conditions before the claim settles, on a foreign
object, and on a watch that ends while the claim is still resizing. -/
theorem WaitUntilPVCModifyed_outcome_witness :
    WaitUntilPVCModifyed
      ([.persistentVolumeClaim ["Resizing"], .persistentVolumeClaim ["FileSystemResizePending"]]
        ++ .persistentVolumeClaim [] :: [.other]) "context deadline exceeded" = none ∧
    WaitUntilPVCModifyed ([.persistentVolumeClaim ["Resizing"]] ++ .other :: [])
      "context deadline exceeded" = some "Unknown PVC event type" ∧
    WaitUntilPVCModifyed [.persistentVolumeClaim ["Resizing"]] "context deadline exceeded"
      = some "ContextTimeout" ∧
    WaitUntilPVCModifyed [] "context deadline exceeded" = some "ContextTimeout" :=
  ⟨WaitUntilPVCModifyed_outcome.1 _ _ _ (by decide),
    WaitUntilPVCModifyed_outcome.2.1 _ _ _ (by decide),
    WaitUntilPVCModifyed_outcome.2.2 _ (by decide),
    WaitUntilPVCModifyed_outcome.2.2 [] (by decide)⟩

/-! ## Error handling of `main` -/

theorem mainMountPoint_skip : ∀ (done rest : List (Option GoError)), (∀ r ∈ done, r = none) →
    mainMountPoint (done ++ rest) = mainMountPoint rest
  | [], _, _ => rfl
  | some e :: _, _, h => absurd (h _ (List.mem_cons_self _ _)) (by simp)
  | none :: done, rest, h => by
    rw [List.cons_append, mainMountPoint]
    exact mainMountPoint_skip done rest (fun r hr => h r (List.mem_cons_of_mem _ hr))

/-- C9, as the code has it. In the `-pvc` case the error `DryRunOperation` ends the run with
status 0 after the dry-run message, the error `ContextTimeout` ends it with status 1 after a
message of its own, and every other error ends it with status 1 after the text of the
error. In the `-mount-point` case the first error ends the run: with status 0 after the
dry-run message when it is an AWS error with the code `DryRunOperation`, with status 1
otherwise. -/
theorem main_error_handling :
    (∀ pvcNamespace e, GoError.Error e = "DryRunOperation" →
      mainPVC pvcNamespace (some e) = { logs := [.info dryRunMessage], status := 0 }) ∧
    (∀ pvcNamespace e, GoError.Error e = "ContextTimeout" →
      mainPVC pvcNamespace (some e) =
        { logs := [.fatal
            ("Timeout while waiting for the PVC enlargement. See events in namespace \""
              ++ pvcNamespace ++ "\".")],
          status := 1 }) ∧
    (∀ pvcNamespace e, GoError.Error e ≠ "DryRunOperation" → GoError.Error e ≠ "ContextTimeout" →
      mainPVC pvcNamespace (some e) = { logs := [.fatal (GoError.Error e)], status := 1 }) ∧
    (∀ done message rest, (∀ r ∈ done, r = none) →
      mainMountPoint (done ++ some (.aws "DryRunOperation" message) :: rest)
        = { logs := [.info dryRunMessage], status := 0 }) ∧
    (∀ done e rest, (∀ r ∈ done, r = none) → (∀ message, e ≠ .aws "DryRunOperation" message) →
      mainMountPoint (done ++ some e :: rest)
        = { logs := [.fatal (GoError.Error e)], status := 1 }) := by
  refine ⟨?_, ?_, ?_, ?_, ?_⟩
  · intro ns e h
    simp [mainPVC, h]
  · intro ns e h
    simp [mainPVC, h]
  · intro ns e h1 h2
    simp [mainPVC, h1, h2]
  · intro done message rest hdone
    rw [mainMountPoint_skip done _ hdone]
    simp [mainMountPoint]
  · intro done e rest hdone he
    rw [mainMountPoint_skip done _ hdone]
    cases e with
    | plain msg => simp [mainMountPoint, GoError.Error]
    | aws code message =>
      have hcode : code ≠ "DryRunOperation" := by
        rintro rfl
        exact he message rfl
      simp [mainMountPoint, hcode]

/-- C9, on the two errors that `EnlargePVC` makes itself, on a cluster error, and on two
volumes of which the second gets the dry-run answer of EC2. -/
theorem main_error_handling_witness :
    mainPVC "default" (some (.plain "DryRunOperation"))
      = { logs := [.info dryRunMessage], status := 0 } ∧
    mainPVC "default" (some (.plain "ContextTimeout"))
      = { logs := [.fatal
            ("Timeout while waiting for the PVC enlargement. See events in namespace \""
              ++ "default" ++ "\".")],
          status := 1 } ∧
    mainPVC "default" (some (.plain "Unknown PVC event type"))
      = { logs := [.fatal (GoError.Error (.plain "Unknown PVC event type"))], status := 1 } ∧
    mainMountPoint ([none] ++ some (.aws "DryRunOperation" "Request would have succeeded") :: [])
      = { logs := [.info dryRunMessage], status := 0 } ∧
    mainMountPoint ([none] ++ some (.aws "ResourceNotReady" "exceeded wait attempts") :: [])
      = { logs := [.fatal (GoError.Error (.aws "ResourceNotReady" "exceeded wait attempts"))],
          status := 1 } :=
  ⟨main_error_handling.1 "default" (.plain "DryRunOperation") (by decide),
    main_error_handling.2.1 "default" (.plain "ContextTimeout") (by decide),
    main_error_handling.2.2.1 "default" (.plain "Unknown PVC event type")
      (by decide) (by decide),
    main_error_handling.2.2.2.1 [none] "Request would have succeeded" [] (by decide),
    main_error_handling.2.2.2.2 [none] (.aws "ResourceNotReady" "exceeded wait attempts") []
      (by decide) (by intro message h; exact absurd (GoError.aws.inj h).1 (by decide))⟩

/-- C9 fails as stated: on the error `ContextTimeout` the run ends with status 1, not 0. -/
theorem mainPVC_timeout_status :
    GoError.Error (.plain "ContextTimeout") = "ContextTimeout" ∧
    (mainPVC "default" (some (.plain "ContextTimeout"))).status = 1 ∧
    (mainPVC "default" (some (.plain "ContextTimeout"))).status ≠ 0 := by
  decide

/-! ## Dry run -/

theorem pvcSnapshotStep_calls (k : K8sBackend) (pvc pvcNamespace : String)
    (createSnapshot : Bool) :
    ∀ q ∈ (pvcSnapshotStep k pvc pvcNamespace createSnapshot).1,
      createSnapshot = true ∧ q = .createVolumeSnapshot pvcNamespace pvc := by
  unfold pvcSnapshotStep
  cases createSnapshot <;> cases k.marshalSnapshot <;> cases k.postSnapshot <;> simp

theorem pvcResizeStep_dryRun (pct : Int → Int → Int) (k : K8sBackend)
    (pvc pvcNamespace : String) (percents currentSizeInB : Int) (waitForModifying : Bool) :
    ∃ storage,
      (pvcResizeStep pct k pvc pvcNamespace percents currentSizeInB true waitForModifying).1
        = [.patchPVC pvcNamespace pvc storage ["All"]] ∧
      (k.patchPVC ["All"] storage = none →
        (pvcResizeStep pct k pvc pvcNamespace percents currentSizeInB true waitForModifying).2
          = some (.plain "DryRunOperation")) := by
  unfold pvcResizeStep
  simp only [if_true]
  generalize toString (wrapInt64 (Int.tdiv currentSizeInB 1073741824 +
    pct (Int.tdiv currentSizeInB 1073741824) percents)) ++ "Gi" = storage
  refine ⟨storage, ?_, ?_⟩
  · cases k.patchPVC ["All"] storage <;> rfl
  · intro h
    rw [h]

theorem ec2SnapshotStep_calls (b : Ec2Backend) (volumeID : String) (createSnapshot : Bool) :
    ∀ q ∈ (ec2SnapshotStep b volumeID createSnapshot).1,
      (createSnapshot = true ∧ q = .createSnapshot volumeID) ∨
        ∃ snapshotID, q = .waitUntilSnapshotCompleted snapshotID := by
  unfold ec2SnapshotStep
  cases createSnapshot <;> cases b.createSnapshot <;> simp

theorem ec2ResizeStep_dryRun (pct : Int → Int → Int) (b : Ec2Backend) (volumeID : String)
    (percents : Int) (waitForModifying : Bool) :
    (∀ q ∈ (ec2ResizeStep pct b volumeID percents true waitForModifying).1,
      Ec2Request.changesState q = false) ∧
    (∀ size message,
      .modifyVolume volumeID size true ∈
        (ec2ResizeStep pct b volumeID percents true waitForModifying).1 →
      b.modifyVolume true size = some (.aws "DryRunOperation" message) →
      (ec2ResizeStep pct b volumeID percents true waitForModifying).2
        = .returned (some (.aws "DryRunOperation" message)) ∧
      .waitUntilVolumeModifyed volumeID ∉
        (ec2ResizeStep pct b volumeID percents true waitForModifying).1) := by
  unfold ec2ResizeStep
  rcases b.describeVolumes with e | (_ | ⟨size, sizes⟩)
  · simp [Ec2Request.changesState]
  · simp [Ec2Request.changesState]
  · simp only []
    generalize wrapInt64 (size + pct size percents) = newSize
    cases hm : b.modifyVolume true newSize with
    | some e =>
      refine ⟨by simp [Ec2Request.changesState], ?_⟩
      intro size' message hmem hacc
      have hsize : size' = newSize := by simpa using hmem
      subst hsize
      rw [hm] at hacc
      cases hacc
      simp
    | none =>
      refine ⟨by cases waitForModifying <;> simp [Ec2Request.changesState], ?_⟩
      intro size' message hmem hacc
      have hsize : size' = newSize := by
        cases waitForModifying <;> simpa using hmem
      subst hsize
      rw [hm] at hacc
      cases hacc

/-- The part of a run that dry-run does reach, in both modes and for every setting of the
snapshot and wait options: the resize request carries the dry-run option, no request other
than the creation of a snapshot changes state, and when the backend accepts the resize
request (the patch returns no error; `ModifyVolume` returns the error code
`DryRunOperation`) the operation ends with the `DryRunOperation` result and no wait is
started. -/
theorem dryRun_requests :
    (∀ (pct : Int → Int → Int) (k : K8sBackend) (pvc pvcNamespace : String) (percents : Int)
        (createSnapshot waitForModifying : Bool),
      (∀ q ∈ (EnlargePVC pct k pvc pvcNamespace percents createSnapshot true waitForModifying).1,
        K8sRequest.changesState q = true →
          createSnapshot = true ∧ q = .createVolumeSnapshot pvcNamespace pvc) ∧
      (.watchPVC pvcNamespace pvc ∉
        (EnlargePVC pct k pvc pvcNamespace percents createSnapshot true waitForModifying).1) ∧
      (∀ storage, .patchPVC pvcNamespace pvc storage ["All"] ∈
          (EnlargePVC pct k pvc pvcNamespace percents createSnapshot true waitForModifying).1 →
        k.patchPVC ["All"] storage = none →
        (EnlargePVC pct k pvc pvcNamespace percents createSnapshot true waitForModifying).2
          = some (.plain "DryRunOperation"))) ∧
    (∀ (pct : Int → Int → Int) (b : Ec2Backend) (volumeID : String) (percents : Int)
        (createSnapshot waitForModifying : Bool),
      (∀ q ∈ (EnlargeVolumeByID pct b volumeID percents createSnapshot true waitForModifying).1,
        Ec2Request.changesState q = true →
          createSnapshot = true ∧ q = .createSnapshot volumeID) ∧
      (∀ size message, .modifyVolume volumeID size true ∈
          (EnlargeVolumeByID pct b volumeID percents createSnapshot true waitForModifying).1 →
        b.modifyVolume true size = some (.aws "DryRunOperation" message) →
        (EnlargeVolumeByID pct b volumeID percents createSnapshot true waitForModifying).2
          = .returned (some (.aws "DryRunOperation" message)) ∧
        .waitUntilVolumeModifyed volumeID ∉
          (EnlargeVolumeByID pct b volumeID percents createSnapshot true waitForModifying).1)) := by
  constructor
  · intro pct k pvc pvcNamespace percents createSnapshot waitForModifying
    have hsnap := pvcSnapshotStep_calls k pvc pvcNamespace createSnapshot
    unfold EnlargePVC
    cases k.inClusterConfig with
    | some e => simp
    | none =>
    cases k.newForConfig with
    | some e => simp
    | none =>
    cases k.getPVC with
    | error e => simp [K8sRequest.changesState]
    | ok currentSizeInB =>
    obtain ⟨storage, hcalls, hres⟩ := pvcResizeStep_dryRun pct k pvc pvcNamespace percents
      currentSizeInB waitForModifying
    rcases hstep : pvcSnapshotStep k pvc pvcNamespace createSnapshot with ⟨calls, _ | e⟩
    · rw [hstep] at hsnap
      simp only [hcalls]
      refine ⟨?_, ?_, ?_⟩
      · intro q hq hchg
        simp only [List.cons_append, List.mem_cons, List.mem_append, List.mem_singleton,
          List.not_mem_nil, or_false] at hq
        rcases hq with rfl | hq | rfl
        · simp [K8sRequest.changesState] at hchg
        · exact hsnap q hq
        · simp [K8sRequest.changesState] at hchg
      · intro hmem
        simp only [List.cons_append, List.mem_cons, List.mem_append, List.mem_singleton,
          List.not_mem_nil, or_false] at hmem
        rcases hmem with h | h | h
        · cases h
        · cases (hsnap _ h).2
        · cases h
      · intro storage' hmem hacc
        simp only [List.cons_append, List.mem_cons, List.mem_append, List.mem_singleton,
          List.not_mem_nil, or_false] at hmem
        rcases hmem with h | h | h
        · cases h
        · cases (hsnap _ h).2
        · cases h
          exact hres hacc
    · rw [hstep] at hsnap
      refine ⟨?_, ?_, ?_⟩
      · intro q hq hchg
        rcases List.mem_cons.1 hq with rfl | hq
        · simp [K8sRequest.changesState] at hchg
        · exact hsnap q hq
      · intro hmem
        rcases List.mem_cons.1 hmem with h | h
        · cases h
        · cases (hsnap _ h).2
      · intro storage' hmem hacc
        rcases List.mem_cons.1 hmem with h | h
        · cases h
        · cases (hsnap _ h).2
  · intro pct b volumeID percents createSnapshot waitForModifying
    have hsnap := ec2SnapshotStep_calls b volumeID createSnapshot
    obtain ⟨hquiet, hres⟩ := ec2ResizeStep_dryRun pct b volumeID percents waitForModifying
    unfold EnlargeVolumeByID
    rcases hstep : ec2SnapshotStep b volumeID createSnapshot with ⟨calls, _ | e⟩
    · rw [hstep] at hsnap
      simp only []
      refine ⟨?_, ?_⟩
      · intro q hq hchg
        rcases List.mem_append.1 hq with hq | hq
        · rcases hsnap q hq with h | ⟨snapshotID, rfl⟩
          · exact h
          · simp [Ec2Request.changesState] at hchg
        · rw [hquiet q hq] at hchg
          cases hchg
      · intro size message hmem hacc
        have hmem' : .modifyVolume volumeID size true ∈
            (ec2ResizeStep pct b volumeID percents true waitForModifying).1 := by
          rcases List.mem_append.1 hmem with h | h
          · rcases hsnap _ h with h' | ⟨snapshotID, h'⟩
            · cases h'.2
            · cases h'
          · exact h
        obtain ⟨hout, hnowait⟩ := hres size message hmem' hacc
        refine ⟨hout, ?_⟩
        intro hw
        rcases List.mem_append.1 hw with h | h
        · rcases hsnap _ h with h' | ⟨snapshotID, h'⟩
          · cases h'.2
          · cases h'
        · exact hnowait h
    · rw [hstep] at hsnap
      simp only []
      refine ⟨?_, ?_⟩
      · intro q hq hchg
        rcases hsnap q hq with h | ⟨snapshotID, rfl⟩
        · exact h
        · simp [Ec2Request.changesState] at hchg
      · intro size message hmem hacc
        rcases hsnap _ hmem with h' | ⟨snapshotID, h'⟩
        · cases h'.2
        · cases h'

/-- The same on a cluster and an account where every call succeeds, without the snapshot
option. -/
theorem dryRun_requests_witness :
    (∀ q ∈ (EnlargePVC ceilPercent healthyCluster "data" "default" 20 false true true).1,
      K8sRequest.changesState q = true →
        false = true ∧ q = .createVolumeSnapshot "default" "data") ∧
    (EnlargePVC ceilPercent healthyCluster "data" "default" 20 false true true).2
      = some (.plain "DryRunOperation") ∧
    (EnlargeVolumeByID ceilPercent healthyEc2 "vol-0abcd1234" 20 false true true).2
      = .returned (some (.aws "DryRunOperation"
          "Request would have succeeded, but DryRun flag is set.")) ∧
    .waitUntilVolumeModifyed "vol-0abcd1234" ∉
      (EnlargeVolumeByID ceilPercent healthyEc2 "vol-0abcd1234" 20 false true true).1 :=
  ⟨(dryRun_requests.1 ceilPercent healthyCluster "data" "default" 20 false true).1,
    (dryRun_requests.1 ceilPercent healthyCluster "data" "default" 20 false true).2.2 "12Gi"
      (by decide) (by decide),
    ((dryRun_requests.2 ceilPercent healthyEc2 "vol-0abcd1234" 20 false true).2 12
      "Request would have succeeded, but DryRun flag is set." (by decide) (by decide)).1,
    ((dryRun_requests.2 ceilPercent healthyEc2 "vol-0abcd1234" 20 false true).2 12
      "Request would have succeeded, but DryRun flag is set." (by decide) (by decide)).2⟩

set_option maxRecDepth 100000 in
/-- C10, at the failing input. With the dry-run and snapshot options both on, for a volume of
10 GB and 20 percent, the run is not a no-op on the backend: in both modes the creation of a
snapshot, a request that changes state and carries no dry-run option, is issued before the
resize request that carries it, and the operation then ends with `DryRunOperation`. -/
theorem dryRun_snapshot_created :
    EnlargePVC percentageIncrease healthyCluster "data" "default" 20 true true false
      = ([.getPVC "default" "data", .createVolumeSnapshot "default" "data",
          .patchPVC "default" "data" "12Gi" ["All"]],
         some (.plain "DryRunOperation")) ∧
    K8sRequest.createVolumeSnapshot "default" "data" ∈
      (EnlargePVC percentageIncrease healthyCluster "data" "default" 20 true true false).1 ∧
    K8sRequest.changesState (.createVolumeSnapshot "default" "data") = true ∧
    EnlargeVolumeByID percentageIncrease healthyEc2 "vol-0abcd1234" 20 true true false
      = ([.createSnapshot "vol-0abcd1234", .waitUntilSnapshotCompleted "snap-0123",
          .describeVolumes "vol-0abcd1234", .modifyVolume "vol-0abcd1234" 12 true],
         .returned (some (.aws "DryRunOperation"
           "Request would have succeeded, but DryRun flag is set."))) ∧
    Ec2Request.createSnapshot "vol-0abcd1234" ∈
      (EnlargeVolumeByID percentageIncrease healthyEc2 "vol-0abcd1234" 20 true true false).1 ∧
    Ec2Request.changesState (.createSnapshot "vol-0abcd1234") = true := by
  decide

/-! ## The percentage increase -/

set_option maxRecDepth 100000 in
/-- C11, at the failing input, the example of the claim. For a size of 7 GB and 100 percent the
exact ceiling of `7 * 100 / 100` is 7, but `float64(7) / 100 * 100` is the `float64` just above
7, `math.Ceil` makes it 8, and both `EnlargeVolumeByID` and `EnlargePVC` request 15, not 14. -/
theorem percentageIncrease_seven_hundred :
    ceilPercent 7 100 = 7 ∧
    Float64.mul (Float64.div (Float64.ofInt 7) (Float64.ofInt 100)) (Float64.ofInt 100)
      = { neg := false, mant := 7 * 2 ^ 50 + 1, exp := -50 } ∧
    percentageIncrease 7 100 = 8 ∧
    (EnlargeVolumeByID percentageIncrease sevenGigEc2 "vol-0abcd1234" 100 false false false).1
      = [.describeVolumes "vol-0abcd1234", .modifyVolume "vol-0abcd1234" 15 false] ∧
    (EnlargePVC percentageIncrease sevenGigCluster "data" "default" 100 false false false).1
      = [.getPVC "default" "data", .patchPVC "default" "data" "15Gi" []] := by
  decide

set_option maxRecDepth 100000 in
/-- With the default of 20 percent the result is the exact ceiling for every size below
64 GB. -/
theorem percentageIncrease_default_small :
    ∀ s ∈ List.range 64, percentageIncrease (s : Int) 20 = ceilPercent (s : Int) 20 := by
  decide

set_option maxRecDepth 100000 in
/-- The result is one above the exact ceiling at other sizes and percentages too. -/
theorem percentageIncrease_other_inexact :
    percentageIncrease 28 25 = 8 ∧ ceilPercent 28 25 = 7 ∧
    percentageIncrease 14 50 = 8 ∧ ceilPercent 14 50 = 7 ∧
    percentageIncrease 55 100 = 56 ∧ ceilPercent 55 100 = 55 := by
  decide

/-! ## Device numbers -/

/-- The quotient and remainder by 256 are the major and minor number exactly for the device
numbers below `2 ^ 20`, those with a major number below 4096 and a minor number below 256. -/
theorem deviceNumbers_eq_iff (rdev : Nat) :
    (deviceMajorNumber rdev = linuxMajor rdev ∧ deviceMinorNumber rdev = linuxMinor rdev)
      ↔ rdev < 2 ^ 20 := by
  unfold deviceMajorNumber deviceMinorNumber linuxMajor linuxMinor
  norm_num
  constructor
  · rintro ⟨h1, h2⟩
    have hx : rdev / 256 / 4096 = rdev / 1048576 := Nat.div_div_eq_div_mul _ _ _
    have hC : rdev / 17592186044416 % 1048576 < 1048576 := Nat.mod_lt _ (by norm_num)
    have hB : rdev / 1048576 % 16777216 = 0 := by
      generalize rdev / 1048576 % 16777216 = B at h2
      omega
    have hy : rdev / 256 / 4096 = rdev / 17592186044416 % 1048576 := by
      generalize rdev / 17592186044416 % 1048576 = C at h1
      generalize rdev / 256 = y at h1
      omega
    rw [hx] at hy
    have hzero : rdev / 1048576 = 0 := by
      generalize rdev / 17592186044416 % 1048576 = C at hy hC
      generalize rdev / 1048576 = x at hy hB
      omega
    exact (Nat.div_eq_zero_iff (by norm_num)).1 hzero
  · intro h
    constructor <;> omega

/-- C12, at the failing input. The device with major number 259 and minor number 256 has
the device number 1114880; the code computes 4355 and 0 from it and builds the path
`/sys/dev/block/4355:0`, not `/sys/dev/block/259:256`. -/
theorem deviceSysPath_minor_256 :
    linuxMkdev 259 256 = 1114880 ∧
    linuxMajor 1114880 = 259 ∧ linuxMinor 1114880 = 256 ∧
    deviceMajorNumber 1114880 = 4355 ∧ deviceMinorNumber 1114880 = 0 ∧
    deviceSysPath "/sys" 1114880 = "/sys/dev/block/4355:0" := by
  decide

end EbsAutoscaler
